import Mathlib

/-!
Verification of the hydroV4 telemetry-ingestion and actuator-control core.

This file shallowly embeds the relevant parts of the source:
  * `src/backend/api.py` — the batch actuator-control endpoint and its
    nested pure permission function `is_allowed`;
  * `src/backend/services/persistence.py` — `sync_device_metrics`;
  * `src/backend/mqtt_client.py` — payload flattening, the telemetry
    handlers / value cache, cache population, and the per-topic
    rate-limited actuator publisher;
  * `src/agents/gardener/automation_runner.py` and
    `src/agents/gardener/hydro_client.py` — cron-condition evaluation,
    rule execution bookkeeping, and the `set_actuator` action.

Python strings are modelled as Lean `String`; Python `str.lower`,
`str.strip` and `str.replace(" ", "")` are embedded as explicit
character-level functions (`pyLower`, `pyStrip`, `removeSpaces`) matching
Python semantics on the ASCII data this system handles.  Python dicts are
modelled as insertion-ordered association lists with last-write-wins
update (`upsertAssoc`), which is exactly the observable behaviour of
`dict.__setitem__` plus iteration order.  JSON payload values are the
inductive `Json`.  Exceptions (`HTTPException`, `ValueError`) are
modelled with `Except`.
-/

namespace HydroV4

/-! ## Python string primitives -/

/-- `str.lower` on one character (ASCII range, the only range used by the
device keys / actuator keys / states this system handles). -/
def pyLowerChar (c : Char) : Char :=
  if 'A' ≤ c ∧ c ≤ 'Z' then Char.ofNat (c.toNat + 32) else c

/-- Embedding of Python `str.lower`. -/
def pyLower (s : String) : String :=
  ⟨s.data.map pyLowerChar⟩

/-- The whitespace characters removed by Python `str.strip()`. -/
def pyIsSpace (c : Char) : Bool :=
  c = ' ' || c = '\t' || c = '\n' || c = '\r' || c = '\x0b' || c = '\x0c'

/-- Embedding of Python `str.strip()`. -/
def pyStrip (s : String) : String :=
  ⟨((s.data.dropWhile pyIsSpace).reverse.dropWhile pyIsSpace).reverse⟩

/-- Embedding of Python `str.replace(" ", "")`. -/
def removeSpaces (s : String) : String :=
  ⟨s.data.filter (fun c => c ≠ ' ')⟩

/-! ## Ordered association lists (Python `dict` semantics) -/

/-- `d[k] = v` on a Python dict: overwrite in place if the key exists
(keeping its original position), else append. -/
def upsertAssoc {α β : Type} [DecidableEq α] (l : List (α × β)) (k : α) (v : β) :
    List (α × β) :=
  if l.any (fun p => p.1 = k) then
    l.map (fun p => if p.1 = k then (k, v) else p)
  else
    l ++ [(k, v)]

/-- `d.get(k)`: the value stored at `k`. -/
def lookupAssoc {α β : Type} [DecidableEq α] (l : List (α × β)) (k : α) : Option β :=
  (l.find? (fun p => p.1 = k)).map (·.2)

theorem lookupAssoc_nil {α β : Type} [DecidableEq α] (k : α) :
    lookupAssoc ([] : List (α × β)) k = none := rfl

theorem lookupAssoc_cons {α β : Type} [DecidableEq α] (p : α × β) (l : List (α × β)) (k : α) :
    lookupAssoc (p :: l) k = if p.1 = k then some p.2 else lookupAssoc l k := by
  simp only [lookupAssoc, List.find?]
  by_cases h : p.1 = k <;> simp [h]

theorem lookupAssoc_append {α β : Type} [DecidableEq α] (l l' : List (α × β)) (k : α) :
    lookupAssoc (l ++ l') k =
      match lookupAssoc l k with
      | some v => some v
      | none => lookupAssoc l' k := by
  induction l with
  | nil => simp [lookupAssoc_nil]
  | cons p rest ih =>
    rw [List.cons_append, lookupAssoc_cons, lookupAssoc_cons]
    by_cases h : p.1 = k <;> simp [h, ih]

theorem lookupAssoc_eq_none_of_not_any {α β : Type} [DecidableEq α]
    (l : List (α × β)) (k : α) (h : l.any (fun p => p.1 = k) = false) :
    lookupAssoc l k = none := by
  induction l with
  | nil => rfl
  | cons p rest ih =>
    simp only [List.any_cons, Bool.or_eq_false_iff] at h
    rw [lookupAssoc_cons]
    have hp : ¬ p.1 = k := by
      intro hk
      simp [hk] at h
    simp [hp, ih h.2]

theorem lookupAssoc_map_update_ne {α β : Type} [DecidableEq α]
    (l : List (α × β)) (k k' : α) (v : β) (hne : k' ≠ k) :
    lookupAssoc (l.map (fun p => if p.1 = k then (k, v) else p)) k' =
      lookupAssoc l k' := by
  induction l with
  | nil => rfl
  | cons p rest ih =>
    simp only [List.map_cons]
    by_cases hp : p.1 = k
    · rw [if_pos hp, lookupAssoc_cons, lookupAssoc_cons]
      have h1 : ¬ (k = k') := fun h => hne h.symm
      have h2 : ¬ (p.1 = k') := hp ▸ h1
      simp only [h1, if_false, h2, if_false, ih]
    · rw [if_neg hp, lookupAssoc_cons, lookupAssoc_cons]
      by_cases hk : p.1 = k' <;> simp [hk, ih]

theorem lookupAssoc_map_update_eq {α β : Type} [DecidableEq α]
    (l : List (α × β)) (k : α) (v : β) (h : l.any (fun p => p.1 = k) = true) :
    lookupAssoc (l.map (fun p => if p.1 = k then (k, v) else p)) k = some v := by
  induction l with
  | nil => simp at h
  | cons p rest ih =>
    simp only [List.map_cons]
    by_cases hp : p.1 = k
    · rw [if_pos hp, lookupAssoc_cons]
      simp
    · rw [if_neg hp, lookupAssoc_cons]
      simp only [List.any_cons] at h
      have hrest : rest.any (fun q => q.1 = k) = true := by
        rcases Bool.or_eq_true_iff.mp h with h1 | h1
        · exact absurd (by simpa using h1) hp
        · exact h1
      simp [hp, ih hrest]

/-- Looking a key up after a `dict` update: the updated key returns the new
value, every other key is unaffected. -/
theorem lookupAssoc_upsert {α β : Type} [DecidableEq α]
    (l : List (α × β)) (k k' : α) (v : β) :
    lookupAssoc (upsertAssoc l k v) k' =
      if k' = k then some v else lookupAssoc l k' := by
  unfold upsertAssoc
  by_cases hmem : l.any (fun p => p.1 = k) = true
  · rw [if_pos hmem]
    by_cases hk : k' = k
    · subst hk
      rw [if_pos rfl, lookupAssoc_map_update_eq l k' v hmem]
    · rw [if_neg hk, lookupAssoc_map_update_ne l k k' v hk]
  · rw [if_neg hmem, lookupAssoc_append]
    by_cases hk : k' = k
    · subst hk
      rw [lookupAssoc_eq_none_of_not_any l k' (Bool.eq_false_iff.mpr hmem)]
      simp [lookupAssoc_cons]
    · simp only [if_neg hk]
      cases hfind : lookupAssoc l k' with
      | some v' => rfl
      | none =>
        rw [lookupAssoc_cons]
        simp [show ¬(k = k') from fun h => hk h.symm, lookupAssoc_nil]

/-! ## Permission Arbiter (`is_allowed`, nested in
`control_actuators_batch`, `src/backend/api.py` lines 553-572)

```python
def is_allowed(mode: str, source: str, force: bool) -> tuple[bool, str]:
    if mode == 'auto':
        if source in ('ai', 'automation'):
            return True, ""
        elif source == 'user' and force:
            return True, ""  # Emergency override
        else:
            return False, "Actuator is in AUTO mode (use force=true for emergency override)"
    else:  # manual mode
        if source == 'user':
            return True, ""
        else:
            return False, "Actuator is in MANUAL mode (user emergency override active)"
```
-/

def is_allowed (mode source : String) (force : Bool) : Bool × String :=
  if mode = "auto" then
    if source = "ai" ∨ source = "automation" then
      (true, "")
    else if source = "user" ∧ force then
      (true, "")
    else
      (false, "Actuator is in AUTO mode (use force=true for emergency override)")
  else
    if source = "user" then
      (true, "")
    else
      (false, "Actuator is in MANUAL mode (user emergency override active)")

/-- C1. The permission table of §4.6: in `auto` mode, `ai` and `automation`
are allowed and `user` is blocked with a reason citing AUTO mode unless
`force` is true (emergency override); in `manual` mode, `user` is allowed
regardless of `force`, and `ai`/`automation` are blocked with a reason
citing MANUAL mode.  All 3×2×2 combinations of
`(mode, source, force)` are enumerated. -/
theorem is_allowed_matches_permission_table :
    is_allowed "auto" "ai" false = (true, "") ∧
    is_allowed "auto" "ai" true = (true, "") ∧
    is_allowed "auto" "automation" false = (true, "") ∧
    is_allowed "auto" "automation" true = (true, "") ∧
    is_allowed "auto" "user" false =
      (false, "Actuator is in AUTO mode (use force=true for emergency override)") ∧
    is_allowed "auto" "user" true = (true, "") ∧
    is_allowed "manual" "ai" false =
      (false, "Actuator is in MANUAL mode (user emergency override active)") ∧
    is_allowed "manual" "ai" true =
      (false, "Actuator is in MANUAL mode (user emergency override active)") ∧
    is_allowed "manual" "automation" false =
      (false, "Actuator is in MANUAL mode (user emergency override active)") ∧
    is_allowed "manual" "automation" true =
      (false, "Actuator is in MANUAL mode (user emergency override active)") ∧
    is_allowed "manual" "user" false = (true, "") ∧
    is_allowed "manual" "user" true = (true, "") := by
  refine ⟨?_, ?_, ?_, ?_, ?_, ?_, ?_, ?_, ?_, ?_, ?_, ?_⟩ <;> rfl

/-! ## Batch actuator control (`control_actuators_batch`,
`src/backend/api.py` lines 494-624)

The request body is parsed by pydantic into `ActuatorBatchControl`
(`src/backend/models.py` lines 161-162), which declares only the field
`commands`.  Pydantic v2 (the repo uses `pydantic_settings`) with its
default `extra="ignore"` drops undeclared keys of the request body, and
Python attribute access for a name that is not a declared field raises
`AttributeError`.  The handler reads `batch.source` (line 511) and
`batch.force` (lines 580, 599), so a request has two error outcomes: an
`HTTPException` raised by the handler (`EndpointErr.httpException status
detail`) and an unhandled `AttributeError`
(`EndpointErr.attributeError name`, which FastAPI reports as HTTP 500).

The code below line 511 — dedupe by `(device_id, normalized
actuator_key)` with last-write-wins, per-command validation, the
registry lookup of actuator metrics (the SQL query joining `Device` and
`Metric` with `metric_type = 'actuator'`), the missing / blocked /
processed partition, per-device grouping of processed commands and the
`mqtt_client.publish_actuator_batch(device_id, controls)` calls — is
translated in `batchBody`, parametrized by the `source` and `force`
values that code tries to read from the request model.
-/

structure ActCommand where
  device_id : String
  actuator_key : String
  state : String
deriving DecidableEq, Repr

structure ActControl where
  actuator_key : String
  state : String
deriving DecidableEq, Repr

structure MissingItem where
  device_id : String
  actuator_key : String
deriving DecidableEq, Repr

structure BlockedItem where
  device_id : String
  actuator_key : String
  reason : String
  mode : String
  source : String
deriving DecidableEq, Repr

structure ProcessedItem where
  device_id : String
  actuator_key : String
  state : String
  mode : String
deriving DecidableEq, Repr

/-- The JSON body returned by the endpoint, together with the per-device
command groups the code passes to `mqtt_client.publish_actuator_batch`
(the early empty-commands return omits the `details`/`source` keys; it is
modelled with empty fields). -/
structure BatchResult where
  processed : Nat
  skipped : Nat
  missing : List MissingItem
  blocked : List BlockedItem
  details : List ProcessedItem
  deviceCommands : List (String × List ActControl)
  source : String
deriving DecidableEq, Repr

abbrev HttpError := Nat × String

/-- Rows of the actuator-metric lookup: `(device_key, metric_key)` of every
metric with `metric_type = 'actuator'`, with its stored `control_mode`
(nullable column). -/
abbrev Registry := List ((String × String) × Option String)

/-- `control_mode or 'manual'` (Python `or` treats `None` and `""` as falsy). -/
def resolveMode (stored : Option String) : String :=
  match stored with
  | none => "manual"
  | some m => if m = "" then "manual" else m

/-- The dedupe/validation loop of the endpoint: for each command in order,
strip the device id, normalize the actuator key (lowercase, remove
spaces), reject empty ids and states other than on/off with HTTP 400, and
store into the `deduped` dict keyed by `(device_id, normalized_key)`. -/
def validateDedupeAux :
    List ActCommand → List ((String × String) × ActCommand) →
      Except HttpError (List ((String × String) × ActCommand))
  | [], acc => .ok acc
  | c :: rest, acc =>
    let device_id := pyStrip c.device_id
    let normalized_key := removeSpaces (pyLower c.actuator_key)
    if device_id = "" ∨ normalized_key = "" then
      .error (400, "Each command requires device_id and actuator_key")
    else
      let state := pyLower c.state
      if state ≠ "on" ∧ state ≠ "off" then
        .error (400, "Invalid state \x27" ++ c.state ++ "\x27 for actuator \x27" ++
          c.actuator_key ++ "\x27")
      else
        validateDedupeAux rest
          (upsertAssoc acc (device_id, normalized_key) ⟨device_id, normalized_key, state⟩)

/-- The first categorization pass: build `missing` and `blocked` in `pairs`
order. -/
def categorizeAux (registry : Registry) (source : String) (force : Bool) :
    List (String × String) → List MissingItem × List BlockedItem
  | [] => ([], [])
  | (d, a) :: rest =>
    let tail := categorizeAux registry source force rest
    match lookupAssoc registry (d, a) with
    | none => (⟨d, a⟩ :: tail.1, tail.2)
    | some stored =>
      let mode := resolveMode stored
      let res := is_allowed mode source force
      if res.1 then (tail.1, tail.2)
      else (tail.1, ⟨d, a, res.2, mode, source⟩ :: tail.2)

/-- `device_commands[device_id].append(control)` on a `defaultdict(list)`:
first occurrence of a device opens a new group at the end, later commands
append to the existing group. -/
def appendGroup (l : List (String × List ActControl)) (d : String) (c : ActControl) :
    List (String × List ActControl) :=
  if l.any (fun p => p.1 = d) then
    l.map (fun p => if p.1 = d then (p.1, p.2 ++ [c]) else p)
  else
    l ++ [(d, [c])]

/-- The second pass: build the per-device command groups and
`processed_details` for the allowed commands, in `pairs` order. -/
def processAux (registry : Registry) (source : String) (force : Bool) :
    List ((String × String) × ActCommand) →
      List (String × List ActControl) → List ProcessedItem →
      List (String × List ActControl) × List ProcessedItem
  | [], groups, details => (groups, details)
  | ((d, a), cmd) :: rest, groups, details =>
    match lookupAssoc registry (d, a) with
    | none => processAux registry source force rest groups details
    | some stored =>
      let mode := resolveMode stored
      if (is_allowed mode source force).1 then
        processAux registry source force rest
          (appendGroup groups d ⟨cmd.actuator_key, cmd.state⟩)
          (details ++ [⟨d, a, cmd.state, mode⟩])
      else
        processAux registry source force rest groups details

/-- The handler code below line 509 (`src/backend/api.py` lines 511-624),
parametrized by the `source` string and `force` flag it tries to read from
the request model: normalize the source, dedupe/validate the commands,
consult the registry, partition into missing/blocked/processed, group the
processed commands per device for `mqtt_client.publish_actuator_batch`.
In the program this code is unreachable for every request — the
`batch.source` read raises before any of it (see
`control_actuators_batch`) — it is translated so the endpoint model
covers the whole source text of the handler. -/
def batchBody (commands : List ActCommand) (batchSource : String)
    (force : Bool) (registry : Registry) : Except HttpError BatchResult :=
  let source :=
    if pyLower batchSource = "user" ∨ pyLower batchSource = "ai" ∨
        pyLower batchSource = "automation" then
      pyLower batchSource
    else "user"
  match validateDedupeAux commands [] with
  | .error e => .error e
  | .ok deduped =>
    if deduped = [] then
      .ok ⟨0, 0, [], [], [], [], ""⟩
    else
      let pairs := deduped.map (·.1)
      let cat := categorizeAux registry source force pairs
      let proc := processAux registry source force deduped [] []
      .ok ⟨proc.2.length, deduped.length - proc.2.length, cat.1, cat.2, proc.2,
        proc.1, source⟩

/-- Outcome of a request: an `HTTPException` raised by the handler, or an
unhandled Python exception — here an `AttributeError` carrying the
attribute name — which FastAPI reports as an HTTP 500 response. -/
inductive EndpointErr where
  | httpException (status : Nat) (detail : String)
  | attributeError (name : String)
deriving DecidableEq, Repr

/-- The pydantic request model of the endpoint
(`src/backend/models.py` lines 161-162): its only declared field is
`commands`. -/
structure ActuatorBatchControl where
  commands : List ActCommand
deriving DecidableEq, Repr

/-- `batch.source` (`src/backend/api.py` line 511): `source` is not a
declared field of `ActuatorBatchControl`, and pydantic drops undeclared
request-body keys, so the access raises `AttributeError` whatever the
request body contained. -/
def ActuatorBatchControl.getSource (_b : ActuatorBatchControl) :
    Except EndpointErr String :=
  .error (.attributeError "source")

/-- `batch.force` (`src/backend/api.py` lines 580 and 599): `force` is not
a declared field of `ActuatorBatchControl` either, so this access also
raises `AttributeError`. -/
def ActuatorBatchControl.getForce (_b : ActuatorBatchControl) :
    Except EndpointErr Bool :=
  .error (.attributeError "force")

/-- The endpoint `POST /api/actuators/batch-control`
(`control_actuators_batch`, `src/backend/api.py` lines 494-624).  An empty
`commands` list returns the early zero response (lines 508-509); otherwise
the handler reads `batch.source` (line 511) and later `batch.force`
(first consulted at line 580, inside the partition), then runs the rest of
the handler (`batchBody`).  Both reads are hoisted here before `batchBody`
with the `source` read first; since in the program the `source` read
raises on every path that reaches it, hoisting the later `force` read does
not change the function's value on any input. -/
def control_actuators_batch (registry : Registry)
    (batch : ActuatorBatchControl) : Except EndpointErr BatchResult :=
  if batch.commands = [] then
    .ok ⟨0, 0, [], [], [], [], ""⟩
  else
    match batch.getSource, batch.getForce with
    | .error e, _ => .error e
    | .ok _, .error e => .error e
    | .ok rawSource, .ok force =>
      match batchBody batch.commands rawSource force registry with
      | .error (status, detail) => .error (.httpException status detail)
      | .ok r => .ok r

/-- C2 (code bug).  `ActuatorBatchControl` declares only `commands`, so the
`batch.source` access at `src/backend/api.py` line 511 raises
`AttributeError` on every nonempty batch: the request fails with HTTP 500
before any deduplication, validation, registry lookup, partitioning or
publish.  No command is ever forwarded to the publisher and the claimed
partition is never returned — in particular the batch of the claim
scenario (one valid `pump1` command against a registry holding `pump1` in
auto mode) crashes instead of being processed or blocked.  Only the empty
batch returns the early zero response of lines 508-509.  (Even were
`source`/`force` declared, the publish at line 615 calls
`mqtt_client.publish_actuator_batch`, a method `MQTTClient` does not
define — `src/backend/mqtt_client.py` has only
`publish_actuator_control`.) -/
theorem batch_control_crashes_before_partition :
    (∀ (registry : Registry) (c : ActCommand) (rest : List ActCommand),
      control_actuators_batch registry ⟨c :: rest⟩ =
        .error (.attributeError "source")) ∧
    control_actuators_batch [(("grow1", "pump1"), some "auto")]
        ⟨[⟨"grow1", "pump1", "on"⟩]⟩ =
      .error (.attributeError "source") ∧
    (∀ registry : Registry,
      control_actuators_batch registry ⟨[]⟩ = .ok ⟨0, 0, [], [], [], [], ""⟩) :=
  ⟨fun _ _ _ => rfl, rfl, fun _ => rfl⟩

/-- C10 (code bug).  The validation loop at `src/backend/api.py` lines
515-530 — the source of the claimed atomic HTTP 400 rejection and of the
key normalization of accepted commands — is unreachable: the
`batch.source` read at line 511 raises `AttributeError` on every nonempty
batch before the loop, and an empty batch returns early at lines 508-509.
Hence no request to the endpoint ever fails with an `HTTPException` of any
status (first conjunct: the endpoint never returns `httpException`), and a
batch containing a command with the invalid state `"toggle"` crashes with
`AttributeError` (HTTP 500) instead of the claimed HTTP 400 (second
conjunct). -/
theorem batch_control_never_raises_http_400 :
    (∀ (registry : Registry) (batch : ActuatorBatchControl)
        (status : Nat) (detail : String),
      control_actuators_batch registry batch ≠
        .error (.httpException status detail)) ∧
    control_actuators_batch [] ⟨[⟨"grow1", "Relay1", "toggle"⟩]⟩ =
      .error (.attributeError "source") := by
  constructor
  · rintro registry ⟨cmds⟩ status detail h
    cases cmds with
    | nil => exact Except.noConfusion h
    | cons c rest =>
      have h2 : (Except.error (EndpointErr.attributeError "source") :
          Except EndpointErr BatchResult) =
          .error (.httpException status detail) := h
      exact EndpointErr.noConfusion (Except.error.inj h2)
  · rfl

/-! ## Metric synchronization (`sync_device_metrics`,
`src/backend/services/persistence.py` lines 71-143)

The DB table of metrics is modelled as a row list; SQLAlchemy updates of
fetched rows become in-place list updates, inserts become appends.
`ValueError` is modelled as `Except.error`.
-/

structure MetricRow where
  device_id : Nat
  metric_key : String
  display_name : String
  unit : Option String
  metric_type : String
deriving DecidableEq, Repr

/-- An incoming metric-definition dict (each field may be absent). -/
structure MetricDef where
  metric_key : Option String
  key : Option String
  display_name : Option String
  label : Option String
  unit : Option String
  metric_type : Option String
deriving DecidableEq, Repr

/-- Python `a or b` on optional strings (`None` and `""` are falsy). -/
def pyOrStr (a b : Option String) : Option String :=
  match a with
  | some s => if s = "" then b else some s
  | none => b

/-- A normalized metric definition as built by the first loop of
`sync_device_metrics`. -/
structure NormDef where
  metric_key : String
  display_name : String
  unit : Option String
  metric_type : String
deriving DecidableEq, Repr

/-- The normalization loop: derive the key from `metric_key`/`key`
(skipping empty ones), require a valid `metric_type`, default the
display name and unit. -/
def normalizeDefs : List MetricDef → Except String (List NormDef)
  | [] => .ok []
  | d :: rest =>
    let key := pyStrip ((pyOrStr d.metric_key d.key).getD "")
    if key = "" then
      normalizeDefs rest
    else if d.metric_type = none ∨ d.metric_type = some "" then
      .error ("metric_type is required for metric \x27" ++ key ++
        "\x27 but was not provided in discovery data")
    else
      match d.metric_type with
      | none => .error "unreachable"
      | some mt =>
        if mt ≠ "sensor" ∧ mt ≠ "actuator" then
          .error ("metric_type must be \x27sensor\x27 or \x27actuator\x27, got \x27" ++
            mt ++ "\x27 for metric \x27" ++ key ++ "\x27")
        else
          let dn1 := (pyOrStr (pyOrStr d.display_name d.label) (some key)).getD ""
          let dn := if dn1 = "" then key else dn1
          match normalizeDefs rest with
          | .error e => .error e
          | .ok tail => .ok (⟨key, dn, pyOrStr d.unit none, mt⟩ :: tail)

/-- The row a freshly created `Metric(...)` produces. -/
def metricRowFor (device_id : Nat) (it : NormDef) : MetricRow :=
  ⟨device_id, it.metric_key, it.display_name, it.unit, it.metric_type⟩

/-- The row-selection predicate `(Metric.device_id == device) &
(Metric.metric_key == key)`. -/
def rowMatches (device_id : Nat) (key : String) (r : MetricRow) : Bool :=
  r.device_id = device_id ∧ r.metric_key = key

/-- The update branch of the sync loop: set `display_name` when the
definition has a truthy one that differs, set `unit` when different, set
`metric_type` when different. -/
def updateMetricRow (r : MetricRow) (it : NormDef) : MetricRow :=
  { r with
    display_name :=
      if it.display_name ≠ "" ∧ r.display_name ≠ it.display_name then
        it.display_name
      else r.display_name,
    unit := if r.unit ≠ it.unit then it.unit else r.unit,
    metric_type :=
      if r.metric_type ≠ it.metric_type then it.metric_type else r.metric_type }

/-- Process one normalized definition against the row list: update the
existing `(device_id, metric_key)` row, or insert a new one. -/
def applyMetricDef (device_id : Nat) (db : List MetricRow) (it : NormDef) :
    List MetricRow :=
  if db.any (rowMatches device_id it.metric_key) then
    db.map (fun r =>
      if rowMatches device_id it.metric_key r then updateMetricRow r it else r)
  else
    db ++ [metricRowFor device_id it]

def applyMetricDefs (device_id : Nat) (db : List MetricRow) :
    List NormDef → List MetricRow
  | [] => db
  | it :: rest => applyMetricDefs device_id (applyMetricDef device_id db it) rest

/-- `sync_device_metrics(device_id, metric_defs)` acting on the metric
table (the returned keyed mapping is a query of the resulting table and
carries no extra information). -/
def sync_device_metrics (device_id : Nat) (defs : List MetricDef)
    (db : List MetricRow) : Except String (List MetricRow) :=
  if defs = [] then .ok db
  else
    match normalizeDefs defs with
    | .error e => .error e
    | .ok normalized =>
      if normalized = [] then .ok db
      else .ok (applyMetricDefs device_id db normalized)

/-- C3 (counterexample). A stored `sensor` metric redefined as `actuator`:
`sync_device_metrics` silently overwrites the stored `metric_type`
(`if metric.metric_type != item["metric_type"]: metric.metric_type = ...`),
contradicting the claim that the conflicting redefinition is rejected or
ignored and the stored `metric_type` left unchanged. -/
theorem sync_metrics_overwrites_metric_type :
    sync_device_metrics 1 [⟨some "ph", none, none, none, none, some "actuator"⟩]
        [⟨1, "ph", "pH", none, "sensor"⟩] =
      .ok [⟨1, "ph", "ph", none, "actuator"⟩] ∧
    ("actuator" : String) ≠ "sensor" := by
  exact ⟨rfl, by decide⟩

/-- `metric_type` of the `(device_id, metric_key)` row. -/
def metricTypeAt (db : List MetricRow) (device_id : Nat) (key : String) :
    Option String :=
  (db.find? (rowMatches device_id key)).map (·.metric_type)

/-- The last normalized definition with the given key, if any. -/
def lastDefFor : List NormDef → String → Option NormDef
  | [], _ => none
  | it :: rest, k =>
    match lastDefFor rest k with
    | some it' => some it'
    | none => if it.metric_key = k then some it else none

def keyExists (db : List MetricRow) (device_id : Nat) (key : String) : Bool :=
  db.any (rowMatches device_id key)

theorem rowMatches_updateMetricRow (d : Nat) (k : String) (r : MetricRow)
    (it : NormDef) : rowMatches d k (updateMetricRow r it) = rowMatches d k r := by
  simp [rowMatches, updateMetricRow]

theorem updateMetricRow_metric_type (r : MetricRow) (it : NormDef) :
    (updateMetricRow r it).metric_type = it.metric_type := by
  simp only [updateMetricRow]
  by_cases h : r.metric_type = it.metric_type <;> simp [h]

theorem rowMatches_comp_update (device : Nat) (it : NormDef) (d : Nat) (k : String)
    (r : MetricRow) :
    rowMatches d k
      (if rowMatches device it.metric_key r then updateMetricRow r it else r) =
    rowMatches d k r := by
  by_cases hc : rowMatches device it.metric_key r = true
  · simp [hc, rowMatches_updateMetricRow]
  · simp [Bool.eq_false_iff.mpr hc]

theorem keyExists_applyMetricDef (device : Nat) (db : List MetricRow)
    (it : NormDef) (d : Nat) (k : String) (h : keyExists db d k = true) :
    keyExists (applyMetricDef device db it) d k = true := by
  unfold applyMetricDef
  by_cases hany : db.any (rowMatches device it.metric_key) = true
  · rw [if_pos hany]
    unfold keyExists at h ⊢
    rw [List.any_map]
    have hcomp : (rowMatches d k ∘ fun r =>
        if rowMatches device it.metric_key r then updateMetricRow r it else r) =
        rowMatches d k := by
      funext r
      exact rowMatches_comp_update device it d k r
    rw [hcomp]
    exact h
  · rw [if_neg hany]
    unfold keyExists at h ⊢
    rw [List.any_append, h, Bool.true_or]

theorem keyExists_applyMetricDef_self (device : Nat) (db : List MetricRow)
    (it : NormDef) :
    keyExists (applyMetricDef device db it) device it.metric_key = true := by
  unfold applyMetricDef
  by_cases hany : db.any (rowMatches device it.metric_key) = true
  · rw [if_pos hany]
    unfold keyExists
    rw [List.any_map]
    have hcomp : (rowMatches device it.metric_key ∘ fun r =>
        if rowMatches device it.metric_key r then updateMetricRow r it else r) =
        rowMatches device it.metric_key := by
      funext r
      exact rowMatches_comp_update device it device it.metric_key r
    rw [hcomp]
    exact hany
  · rw [if_neg hany]
    unfold keyExists
    rw [List.any_append]
    have hlast : (List.any [metricRowFor device it]
        (rowMatches device it.metric_key)) = true := by
      simp [rowMatches, metricRowFor]
    rw [hlast, Bool.or_true]

theorem keyExists_applyMetricDefs (device : Nat) (l : List NormDef) :
    ∀ (db : List MetricRow) (d : Nat) (k : String), keyExists db d k = true →
      keyExists (applyMetricDefs device db l) d k = true := by
  induction l with
  | nil => intro db d k h; exact h
  | cons it rest ih =>
    intro db d k h
    exact ih _ d k (keyExists_applyMetricDef device db it d k h)

theorem keyExists_applyMetricDefs_mem (device : Nat) (l : List NormDef) :
    ∀ (db : List MetricRow) (it : NormDef), it ∈ l →
      keyExists (applyMetricDefs device db l) device it.metric_key = true := by
  induction l with
  | nil => intro db it h; exact absurd h (List.not_mem_nil it)
  | cons it0 rest ih =>
    intro db it h
    rcases List.mem_cons.mp h with rfl | hmem
    · exact keyExists_applyMetricDefs device rest _ device it.metric_key
        (keyExists_applyMetricDef_self device db it)
    · exact ih _ it hmem

theorem length_applyMetricDef (device : Nat) (db : List MetricRow) (it : NormDef)
    (h : keyExists db device it.metric_key = true) :
    (applyMetricDef device db it).length = db.length := by
  unfold keyExists at h
  unfold applyMetricDef
  rw [if_pos h, List.length_map]

theorem length_applyMetricDefs (device : Nat) (l : List NormDef) :
    ∀ (db : List MetricRow),
      (∀ it ∈ l, keyExists db device it.metric_key = true) →
      (applyMetricDefs device db l).length = db.length := by
  induction l with
  | nil => intro db _; rfl
  | cons it0 rest ih =>
    intro db h
    have h0 := h it0 (List.mem_cons_self _ _)
    have hrest : ∀ it ∈ rest,
        keyExists (applyMetricDef device db it0) device it.metric_key = true :=
      fun it hit => keyExists_applyMetricDef device db it0 _ _
        (h it (List.mem_cons_of_mem _ hit))
    show (applyMetricDefs device (applyMetricDef device db it0) rest).length = _
    rw [ih _ hrest, length_applyMetricDef device db it0 h0]

theorem metricTypeAt_applyMetricDef (device : Nat) (db : List MetricRow)
    (it : NormDef) (d : Nat) (k : String) :
    metricTypeAt (applyMetricDef device db it) d k =
      if d = device ∧ k = it.metric_key then some it.metric_type
      else metricTypeAt db d k := by
  unfold applyMetricDef metricTypeAt
  by_cases hany : db.any (rowMatches device it.metric_key) = true
  · rw [if_pos hany, List.find?_map]
    have hcomp : ((rowMatches d k) ∘ fun r =>
        if rowMatches device it.metric_key r then updateMetricRow r it else r) =
        rowMatches d k := by
      funext r
      exact rowMatches_comp_update device it d k r
    rw [hcomp]
    by_cases hdk : d = device ∧ k = it.metric_key
    · rw [if_pos hdk]
      have hsome : (db.find? (rowMatches d k)).isSome := by
        rw [List.find?_isSome]
        rcases List.any_eq_true.mp hany with ⟨r0, hr0, hp0⟩
        refine ⟨r0, hr0, ?_⟩
        rw [hdk.1, hdk.2]
        exact hp0
      rcases Option.isSome_iff_exists.mp hsome with ⟨r, hr⟩
      rw [hr]
      have hpr : rowMatches d k r = true := List.find?_some hr
      have hpr2 : rowMatches device it.metric_key r = true := by
        rw [← hdk.1, ← hdk.2]
        exact hpr
      simp only [Option.map_some']
      rw [if_pos hpr2, updateMetricRow_metric_type]
    · rw [if_neg hdk]
      cases hfind : db.find? (rowMatches d k) with
      | none => rfl
      | some r =>
        have hpr : rowMatches d k r = true := List.find?_some hfind
        have hne : rowMatches device it.metric_key r = false := by
          simp only [rowMatches, decide_eq_true_eq] at hpr
          simp only [rowMatches, decide_eq_false_iff_not]
          intro hcon
          exact hdk ⟨hpr.1 ▸ hcon.1, hpr.2 ▸ hcon.2⟩
        simp only [Option.map_some', hne, Bool.false_eq_true, if_false]
  · rw [if_neg hany]
    by_cases hdk : d = device ∧ k = it.metric_key
    · rw [if_pos hdk]
      have hnone : db.find? (rowMatches d k) = none := by
        rw [List.find?_eq_none]
        intro r hr hp
        have hp2 : rowMatches device it.metric_key r = true := by
          rw [← hdk.1, ← hdk.2]
          exact hp
        exact absurd (List.any_eq_true.mpr ⟨r, hr, hp2⟩) hany
      rw [List.find?_append, hnone, Option.none_or]
      have hmatch : rowMatches d k (metricRowFor device it) = true := by
        simp only [rowMatches, metricRowFor, decide_eq_true_eq]
        exact ⟨hdk.1.symm, hdk.2.symm⟩
      rw [List.find?_cons_of_pos _ hmatch]
      rfl
    · rw [if_neg hdk, List.find?_append]
      have hfalse : rowMatches d k (metricRowFor device it) = false := by
        simp only [rowMatches, metricRowFor, decide_eq_false_iff_not]
        intro hcon
        exact hdk ⟨hcon.1.symm, hcon.2.symm⟩
      rw [List.find?_cons_of_neg _ (by simp [hfalse])]
      cases db.find? (rowMatches d k) <;> rfl

theorem metricTypeAt_applyMetricDefs (device : Nat) (l : List NormDef) :
    ∀ (db : List MetricRow) (d : Nat) (k : String),
      metricTypeAt (applyMetricDefs device db l) d k =
        match lastDefFor l k with
        | some it => if d = device then some it.metric_type else metricTypeAt db d k
        | none => metricTypeAt db d k := by
  induction l with
  | nil => intro db d k; rfl
  | cons it0 rest ih =>
    intro db d k
    show metricTypeAt (applyMetricDefs device (applyMetricDef device db it0) rest) d k = _
    rw [ih]
    cases hlast : lastDefFor rest k with
    | some it =>
      simp only [lastDefFor, hlast]
      by_cases hd : d = device
      · simp [hd]
      · rw [if_neg hd, if_neg hd, metricTypeAt_applyMetricDef,
          if_neg (fun h => hd h.1)]
    | none =>
      simp only [lastDefFor, hlast]
      rw [metricTypeAt_applyMetricDef]
      by_cases hke : it0.metric_key = k
      · simp only [if_pos hke]
        show _ = if d = device then some it0.metric_type else metricTypeAt db d k
        by_cases hd : d = device
        · rw [if_pos (⟨hd, hke.symm⟩ : d = device ∧ k = it0.metric_key), if_pos hd]
        · rw [if_neg (fun h => hd h.1), if_neg hd]
      · simp only [if_neg hke]
        show _ = metricTypeAt db d k
        rw [if_neg (fun h => hke h.2.symm)]

/-- C3 (amended). `sync_device_metrics` overwrites a conflicting
`metric_type` with the incoming definition (definition wins, silently);
re-applying the same definition list is idempotent in the claimed sense:
no additional metric rows are created and no `metric_type` changes
further. -/
theorem sync_metrics_reapply_same_defs :
    ∀ (device : Nat) (defs : List MetricDef) (db db2 : List MetricRow),
      sync_device_metrics device defs db = .ok db2 →
      ∃ db3, sync_device_metrics device defs db2 = .ok db3 ∧
        db3.length = db2.length ∧
        ∀ (d : Nat) (k : String), metricTypeAt db3 d k = metricTypeAt db2 d k := by
  intro device defs db db2 hok
  unfold sync_device_metrics at hok ⊢
  by_cases hdefs : defs = []
  · rw [if_pos hdefs] at hok ⊢
    cases hok
    exact ⟨_, rfl, rfl, fun _ _ => rfl⟩
  · rw [if_neg hdefs] at hok ⊢
    cases hnorm : normalizeDefs defs with
    | error e =>
      rw [hnorm] at hok
      exact Except.noConfusion hok
    | ok normalized =>
      rw [hnorm] at hok
      replace hok : (if normalized = [] then Except.ok db
          else Except.ok (applyMetricDefs device db normalized)) =
          Except.ok db2 := hok
      show ∃ db3, (if normalized = [] then Except.ok db2
          else Except.ok (applyMetricDefs device db2 normalized)) =
          Except.ok db3 ∧ db3.length = db2.length ∧
          ∀ (d : Nat) (k : String), metricTypeAt db3 d k = metricTypeAt db2 d k
      by_cases hn : normalized = []
      · rw [if_pos hn] at hok ⊢
        cases hok
        exact ⟨_, rfl, rfl, fun _ _ => rfl⟩
      · rw [if_neg hn] at hok ⊢
        cases hok
        refine ⟨applyMetricDefs device (applyMetricDefs device db normalized)
          normalized, rfl, ?_, ?_⟩
        · exact length_applyMetricDefs device normalized _
            (fun it hit => keyExists_applyMetricDefs_mem device normalized db it hit)
        · intro d k
          rw [metricTypeAt_applyMetricDefs, metricTypeAt_applyMetricDefs]
          cases hlast : lastDefFor normalized k with
          | some it =>
            by_cases hd : d = device <;> simp [hd]
          | none => rfl

/-- Witness for `sync_metrics_reapply_same_defs`: one sensor definition
applied to an empty table, then re-applied. -/
theorem sync_metrics_reapply_witness :
    ∃ db3, sync_device_metrics 1
        [⟨some "ph", none, none, none, some "pH", some "sensor"⟩]
        [⟨1, "ph", "ph", some "pH", "sensor"⟩] = .ok db3 ∧
      db3.length = List.length [MetricRow.mk 1 "ph" "ph" (some "pH") "sensor"] ∧
      ∀ (d : Nat) (k : String),
        metricTypeAt db3 d k =
          metricTypeAt [⟨1, "ph", "ph", some "pH", "sensor"⟩] d k := by
  exact sync_metrics_reapply_same_defs 1
    [⟨some "ph", none, none, none, some "pH", some "sensor"⟩] []
    [⟨1, "ph", "ph", some "pH", "sensor"⟩] rfl

/-! ## Sensor payload flattening (`_flatten_sensor_payload`,
`src/backend/mqtt_client.py` lines 171-191)

```python
for key, value in data.items():
    if key == 'device_id':
        continue
    if isinstance(value, (int, float, bool, str)):
        sensors[key] = value
    elif isinstance(value, dict):
        for sub_key, sub_val in value.items():
            if isinstance(sub_val, (int, float, bool, str)):
                if key in ['bme680']:
                    sensors[sub_key] = sub_val
                else:
                    sensors[f"..."] = sub_val   # key + "_" + sub_key
```
-/

inductive Json where
  | num (n : Int)
  | str (s : String)
  | jbool (b : Bool)
  | obj (fields : List (String × Json))
  | arr (elems : List Json)
  | null

/-- `isinstance(v, (int, float, bool, str))`. -/
def isScalar : Json → Bool
  | .num _ => true
  | .str _ => true
  | .jbool _ => true
  | _ => false

/-- The key a nested scalar flattens to: children of the special parent
`bme680` keep their own key, all other children get `parent_child`. -/
def nestedKey (k sk : String) : String :=
  if k = "bme680" then sk else k ++ "_" ++ sk

/-- Process one top-level payload entry into the `sensors` dict. -/
def flattenStep (acc : List (String × Json)) (kv : String × Json) :
    List (String × Json) :=
  if kv.1 = "device_id" then acc
  else if isScalar kv.2 then upsertAssoc acc kv.1 kv.2
  else
    match kv.2 with
    | .obj fields =>
      fields.foldl (fun a sv =>
        if isScalar sv.2 then upsertAssoc a (nestedKey kv.1 sv.1) sv.2
        else a) acc
    | _ => acc

def flatten_sensor_payload (data : List (String × Json)) : List (String × Json) :=
  data.foldl flattenStep []

/-- C9 (counterexample). `{soil: {moisture: 3}}` does not flatten to
`moisture: 3` as the claim states for every one-level-nested entry: the
merge-into-parent naming only happens for the special key `bme680`; every
other nested key flattens to `parent_child`, here `soil_moisture`. -/
theorem flatten_nested_key_not_merged_into_parent :
    lookupAssoc (flatten_sensor_payload [("soil", .obj [("moisture", .num 3)])])
      "moisture" = none ∧
    flatten_sensor_payload [("soil", .obj [("moisture", .num 3)])] =
      [("soil_moisture", .num 3)] ∧
    flatten_sensor_payload [("bme680", .obj [("temperature", .num 21)])] =
      [("temperature", .num 21)] := by
  exact ⟨rfl, rfl, rfl⟩

/-- The pairs emitted by one top-level entry, in emission order and
before dict-overwrite semantics are applied. -/
def flattenEmitEntry (kv : String × Json) : List (String × Json) :=
  if kv.1 = "device_id" then []
  else if isScalar kv.2 then [kv]
  else
    match kv.2 with
    | .obj fields =>
      fields.filterMap (fun sv =>
        if isScalar sv.2 then some (nestedKey kv.1 sv.1, sv.2) else none)
    | _ => []

def flattenEmit (data : List (String × Json)) : List (String × Json) :=
  (data.map flattenEmitEntry).flatten

theorem obj_fold_eq (k : String) (fields : List (String × Json)) :
    ∀ acc, fields.foldl (fun a sv =>
        if isScalar sv.2 then upsertAssoc a (nestedKey k sv.1) sv.2 else a) acc =
      (fields.filterMap (fun sv =>
        if isScalar sv.2 then some (nestedKey k sv.1, sv.2) else none)).foldl
        (fun a p => upsertAssoc a p.1 p.2) acc := by
  induction fields with
  | nil => intro acc; rfl
  | cons sv rest ih =>
    intro acc
    by_cases hs : isScalar sv.2 = true
    · simp only [List.foldl_cons, List.filterMap_cons, hs, if_true]
      exact ih _
    · have hs2 : isScalar sv.2 = false := Bool.eq_false_iff.mpr hs
      simp only [List.foldl_cons, List.filterMap_cons, hs2, Bool.false_eq_true,
        if_false]
      exact ih _

theorem flattenStep_eq_foldl_emit (acc : List (String × Json)) (kv : String × Json) :
    flattenStep acc kv =
      (flattenEmitEntry kv).foldl (fun a p => upsertAssoc a p.1 p.2) acc := by
  unfold flattenStep flattenEmitEntry
  by_cases h0 : kv.1 = "device_id"
  · simp [h0]
  · rw [if_neg h0, if_neg h0]
    by_cases h1 : isScalar kv.2 = true
    · simp [h1]
    · rw [if_neg h1, if_neg h1]
      cases hv : kv.2 with
      | obj fields => exact obj_fold_eq kv.1 fields acc
      | num n => rfl
      | str s => rfl
      | jbool b => rfl
      | arr elems => rfl
      | null => rfl

theorem flatten_eq_foldl_emit (data : List (String × Json)) :
    ∀ acc, data.foldl flattenStep acc =
      (flattenEmit data).foldl (fun a p => upsertAssoc a p.1 p.2) acc := by
  induction data with
  | nil => intro acc; rfl
  | cons kv rest ih =>
    intro acc
    simp only [List.foldl_cons, flattenEmit, List.map_cons, List.flatten_cons,
      List.foldl_append]
    rw [flattenStep_eq_foldl_emit, ih]
    rfl

/-- Keys already placed in the accumulator. -/
def hasKey {β : Type} (l : List (String × β)) (k : String) : Prop :=
  ∃ v, (k, v) ∈ l

theorem foldl_upsert_of_nodup {β : Type} (l : List (String × β)) :
    ∀ acc, (l.map Prod.fst).Nodup →
      (∀ p ∈ l, (acc.find? (fun q => q.1 = p.1)) = none) →
      l.foldl (fun a p => upsertAssoc a p.1 p.2) acc = acc ++ l := by
  induction l with
  | nil => intro acc _ _; simp
  | cons p rest ih =>
    intro acc hnd hdisj
    simp only [List.foldl_cons]
    have hup : upsertAssoc acc p.1 p.2 = acc ++ [p] := by
      unfold upsertAssoc
      have hnone := hdisj p (List.mem_cons_self _ _)
      have hany : acc.any (fun q => q.1 = p.1) = false := by
        cases hb : acc.any (fun q => q.1 = p.1) with
        | false => rfl
        | true =>
          rcases List.any_eq_true.mp hb with ⟨q, hq, hqp⟩
          exact absurd hqp (List.find?_eq_none.mp hnone q hq)
      rw [if_neg (by rw [hany]; exact Bool.false_ne_true)]
    rw [hup]
    simp only [List.map_cons, List.nodup_cons] at hnd
    have hdisj2 : ∀ q ∈ rest, ((acc ++ [p]).find? (fun x => x.1 = q.1)) = none := by
      intro q hq
      rw [List.find?_eq_none]
      intro x hx
      rcases List.mem_append.mp hx with hxa | hxp
      · exact List.find?_eq_none.mp (hdisj q (List.mem_cons_of_mem _ hq)) x hxa
      · rcases List.mem_singleton.mp hxp with rfl
        intro hdec
        have hpq : x.1 = q.1 := of_decide_eq_true hdec
        exact hnd.1 (hpq ▸ List.mem_map_of_mem Prod.fst hq)
    rw [ih (acc ++ [p]) hnd.2 hdisj2]
    simp

theorem lookupAssoc_of_mem_nodup {β : Type} (l : List (String × β)) (k : String)
    (v : β) (hmem : (k, v) ∈ l) (hnd : (l.map Prod.fst).Nodup) :
    lookupAssoc l k = some v := by
  induction l with
  | nil => exact absurd hmem (List.not_mem_nil _)
  | cons p rest ih =>
    simp only [List.map_cons, List.nodup_cons] at hnd
    rw [lookupAssoc_cons]
    rcases List.mem_cons.mp hmem with rfl | hmem2
    · rw [if_pos rfl]
    · have hne : ¬ (p.1 = k) := by
        intro hpk
        exact hnd.1 (hpk ▸ List.mem_map_of_mem Prod.fst hmem2)
      rw [if_neg hne]
      exact ih hmem2 hnd.2

/-- C9 (amended). Flattening merges one level of nesting with a
`parent_child` key — except for the special parent key `bme680`, whose
children are merged directly into the parent namespace (so
`{bme680:{temperature:21}}` flattens to `temperature:21` but
`{soil:{moisture:3}}` flattens to `soil_moisture:3`); top-level scalars
keep their own key, the `device_id` entry is excluded, and non-scalar
nested values are dropped.  Stated for payloads whose emitted flat keys
are pairwise distinct (no collisions). -/
theorem flatten_payload_amended :
    (∀ (payload : List (String × Json)) (k : String) (fields : List (String × Json))
      (sk : String) (v : Json),
      ((flattenEmit payload).map Prod.fst).Nodup →
      (k, Json.obj fields) ∈ payload → k ≠ "device_id" →
      (sk, v) ∈ fields → isScalar v = true →
      lookupAssoc (flatten_sensor_payload payload) (nestedKey k sk) = some v) ∧
    (∀ (payload : List (String × Json)) (k : String) (v : Json),
      ((flattenEmit payload).map Prod.fst).Nodup →
      (k, v) ∈ payload → k ≠ "device_id" → isScalar v = true →
      lookupAssoc (flatten_sensor_payload payload) k = some v) ∧
    (∀ v : Json, flatten_sensor_payload [("device_id", v)] = []) := by
  have hflat : ∀ payload : List (String × Json),
      ((flattenEmit payload).map Prod.fst).Nodup →
      flatten_sensor_payload payload = flattenEmit payload := by
    intro payload hnd
    unfold flatten_sensor_payload
    rw [flatten_eq_foldl_emit payload []]
    rw [foldl_upsert_of_nodup _ [] hnd (fun p _ => rfl)]
    simp
  refine ⟨?_, ?_, ?_⟩
  · intro payload k fields sk v hnd hmem hkid hsub hscal
    rw [hflat payload hnd]
    refine lookupAssoc_of_mem_nodup _ _ _ ?_ hnd
    have hentry : (nestedKey k sk, v) ∈
        flattenEmitEntry (k, Json.obj fields) := by
      unfold flattenEmitEntry
      rw [if_neg hkid]
      have hns : isScalar (Json.obj fields) = false := rfl
      rw [hns]
      simp only [Bool.false_eq_true, if_false]
      rw [List.mem_filterMap]
      refine ⟨(sk, v), hsub, ?_⟩
      rw [if_pos hscal]
    unfold flattenEmit
    rw [List.mem_flatten]
    exact ⟨flattenEmitEntry (k, Json.obj fields),
      List.mem_map_of_mem flattenEmitEntry hmem, hentry⟩
  · intro payload k v hnd hmem hkid hscal
    rw [hflat payload hnd]
    refine lookupAssoc_of_mem_nodup _ _ _ ?_ hnd
    have hentry : (k, v) ∈ flattenEmitEntry (k, v) := by
      unfold flattenEmitEntry
      rw [if_neg hkid, if_pos hscal]
      exact List.mem_singleton.mpr rfl
    unfold flattenEmit
    rw [List.mem_flatten]
    exact ⟨flattenEmitEntry (k, v), List.mem_map_of_mem flattenEmitEntry hmem, hentry⟩
  · intro v
    rfl

/-- Witness for `flatten_payload_amended` on a concrete mixed payload. -/
theorem flatten_payload_amended_witness :
    lookupAssoc (flatten_sensor_payload
      [("device_id", .str "grow1"), ("ph", .num 6),
       ("bme680", .obj [("temperature", .num 21)]),
       ("soil", .obj [("moisture", .num 3)])]) "soil_moisture" = some (.num 3) ∧
    lookupAssoc (flatten_sensor_payload
      [("device_id", .str "grow1"), ("ph", .num 6),
       ("bme680", .obj [("temperature", .num 21)]),
       ("soil", .obj [("moisture", .num 3)])]) "ph" = some (.num 6) := by
  constructor
  · exact flatten_payload_amended.1
      [("device_id", .str "grow1"), ("ph", .num 6),
       ("bme680", .obj [("temperature", .num 21)]),
       ("soil", .obj [("moisture", .num 3)])]
      "soil" [("moisture", .num 3)] "moisture" (.num 3)
      (by decide)
      (by simp) (by simp) (by simp) rfl
  · exact flatten_payload_amended.2.1
      [("device_id", .str "grow1"), ("ph", .num 6),
       ("bme680", .obj [("temperature", .num 21)]),
       ("soil", .obj [("moisture", .num 3)])]
      "ph" (.num 6)
      (by decide)
      (by simp) (by simp) rfl

/-! ## Telemetry ingestion, value cache and device registry
(`src/backend/mqtt_client.py`: `_handle_sensor_data` lines 490-563,
`_handle_relay_status` lines 565-648, `_handle_heartbeat`,
`_handle_discovery`, `populate_cache_from_db` lines 120-157, together
with `upsert_device`/`sync_device_metrics` from
`src/backend/services/persistence.py`)

The mutable state is collapsed into one structure:
  * `devices` — the `Device` table keys (`upsert_device` creates or
    refreshes; only existence is modelled);
  * `registered` — the `Metric` table restricted to
    `(device_key, metric_key) → metric_type`;
  * `discoveryCompleted` — `MQTTClient.discovery_completed`;
  * `store` — the `Reading` table (append-only);
  * `cache` — `MQTTClient.values_cache`, with the dict-of-dicts
    `device -> metric -> value` collapsed to pair keys (`setdefault` +
    assignment is exactly `upsertAssoc` on the pair key).

`insert_reading` failures (transient I/O) are modelled by the message's
`persistFails` set: a failing metric is logged and skipped — no Reading
row and no cache update — without aborting the remaining metrics.  An
unknown metric aborts the rest of the message: `_ensure_metric_id` calls
`sync_device_metrics` with a definition lacking `metric_type`, which
raises `ValueError`, caught only by the handler's outer `try` (the
per-metric `try` wraps only `insert_reading`).
-/

structure TelemetryReading where
  device : String
  metric : String
  value : Json
  ts : Nat

structure IngestState where
  devices : List String
  registered : List ((String × String) × String)
  discoveryCompleted : List String
  store : List TelemetryReading
  cache : List ((String × String) × Json)

structure TelemetryMsg where
  topicDevice : Option String
  payload : List (String × Json)
  ts : Nat
  persistFails : List String

inductive Msg where
  | sensor (m : TelemetryMsg)
  | relay (m : TelemetryMsg)
  | heartbeat (device : String) (ts : Nat)
  | discovery (device : Option String) (defs : List (String × String)) (ts : Nat)

/-- `data.get('device_id') or self._device_id_from_topic(topic)` (the
devices send string ids; an absent/empty/non-string id falls back to the
topic-derived id). -/
def deviceIdOf (m : TelemetryMsg) : Option String :=
  match lookupAssoc m.payload "device_id" with
  | some (.str s) => if s = "" then m.topicDevice else some s
  | _ => m.topicDevice

/-- `upsert_device`: create the device row if absent (last-seen refresh
not modelled beyond existence). -/
def touchDevice (s : IngestState) (dev : String) : IngestState :=
  { s with devices := if dev ∈ s.devices then s.devices else s.devices ++ [dev] }

/-- The per-metric loop shared by the sensor and relay handlers:
resolve the metric (aborting the message on the `ValueError` raised for
an unregistered metric), insert a Reading, update the cache; a failed
insert skips both. -/
def processReadings (dev : String) (ts : Nat) (persistFails : List String) :
    IngestState → List (String × Json) → IngestState
  | s, [] => s
  | s, (k, v) :: rest =>
    if (lookupAssoc s.registered (dev, k)).isSome then
      if k ∈ persistFails then
        processReadings dev ts persistFails s rest
      else
        processReadings dev ts persistFails
          { s with
            store := s.store ++ [⟨dev, k, v, ts⟩],
            cache := upsertAssoc s.cache (dev, k) v } rest
    else
      s

def handle_sensor_data (s : IngestState) (m : TelemetryMsg) : IngestState :=
  match deviceIdOf m with
  | none => s
  | some dev =>
    if dev ∈ s.discoveryCompleted then
      let sensors := flatten_sensor_payload m.payload
      if sensors.isEmpty then s
      else processReadings dev m.ts m.persistFails (touchDevice s dev) sensors
    else s

/-- Embedding of Python `str.startswith`. -/
def pyStartsWith (s pre : String) : Bool :=
  pre.data.isPrefixOf s.data

/-- The relay-status key filter: string keys other than `device_id`
starting with `relay`, collected into a dict. -/
def relayFilter (payload : List (String × Json)) : List (String × Json) :=
  payload.foldl (fun (acc : List (String × Json)) kv =>
    if kv.1 = "device_id" ∨ pyStartsWith kv.1 "relay" = false then acc
    else upsertAssoc acc kv.1 kv.2) []

def handle_relay_status (s : IngestState) (m : TelemetryMsg) : IngestState :=
  match deviceIdOf m with
  | none => s
  | some dev =>
    let relayValues := relayFilter m.payload
    if relayValues.isEmpty then s
    else processReadings dev m.ts m.persistFails (touchDevice s dev) relayValues

def handle_heartbeat (s : IngestState) (dev : String) : IngestState :=
  touchDevice s dev

/-- `_handle_discovery`: derive the id (error event and drop when
absent), upsert the device, sync the announced metric definitions
(`key → metric_type`), and mark discovery completed. -/
def handle_discovery (s : IngestState) (dev : Option String)
    (defs : List (String × String)) : IngestState :=
  match dev with
  | none => s
  | some d =>
    let s1 := touchDevice s d
    let s2 := { s1 with
      registered := defs.foldl
        (fun reg (kv : String × String) => upsertAssoc reg (d, kv.1) kv.2)
        s1.registered }
    { s2 with
      discoveryCompleted :=
        if d ∈ s2.discoveryCompleted then s2.discoveryCompleted
        else s2.discoveryCompleted ++ [d] }

def stepMsg (s : IngestState) : Msg → IngestState
  | .sensor m => handle_sensor_data s m
  | .relay m => handle_relay_status s m
  | .heartbeat dev _ => handle_heartbeat s dev
  | .discovery dev defs _ => handle_discovery s dev defs

def runMsgs (s : IngestState) : List Msg → IngestState
  | [] => s
  | m :: rest => runMsgs (stepMsg s m) rest

/-- C8 (counterexample). A sensor-data message for a device that has not
completed discovery is skipped entirely (`if device_id not in
self.discovery_completed: return`, mqtt_client.py line 509): no Device
row is created and no Reading is persisted, contradicting the claim that
telemetry alone creates the device. -/
theorem sensor_data_before_discovery_creates_nothing :
    stepMsg ⟨[], [], [], [], []⟩
      (.sensor ⟨some "grow1",
        [("device_id", .str "grow1"), ("ph", .num 58)], 1, []⟩) =
      ⟨[], [], [], [], []⟩ := by
  rfl

/-- One step of the latest-reading scan (later entries win ties, which
matches both the append order of `insert_reading` and dict overwrite). -/
def latestUpd (dev k : String) (acc : Option TelemetryReading)
    (r : TelemetryReading) : Option TelemetryReading :=
  if r.device = dev ∧ r.metric = k then
    match acc with
    | none => some r
    | some a => if a.ts ≤ r.ts then some r else acc
  else acc

/-- The most-recent-by-timestamp Reading of a metric. -/
def latestReading (store : List TelemetryReading) (dev k : String) :
    Option TelemetryReading :=
  store.foldl (latestUpd dev k) none

theorem foldl_latestUpd_props (dev k : String) :
    ∀ (store : List TelemetryReading) (acc : Option TelemetryReading)
      (a : TelemetryReading),
      store.foldl (latestUpd dev k) acc = some a →
      ((a ∈ store ∧ a.device = dev ∧ a.metric = k) ∨ acc = some a) ∧
      (∀ r ∈ store, r.device = dev → r.metric = k → r.ts ≤ a.ts) ∧
      (∀ a0, acc = some a0 → a0.ts ≤ a.ts) := by
  intro store
  induction store with
  | nil =>
    intro acc a h
    refine ⟨Or.inr h, fun r hr => absurd hr (List.not_mem_nil r), ?_⟩
    intro a0 ha0
    rw [ha0] at h
    cases h
    exact le_refl _
  | cons r rest ih =>
    intro acc a h
    simp only [List.foldl_cons] at h
    obtain ⟨hmem, hmax, hacc⟩ := ih (latestUpd dev k acc r) a h
    have hstep : ∀ a0, latestUpd dev k acc r = some a0 →
        (a0 = r ∧ r.device = dev ∧ r.metric = k) ∨ acc = some a0 := by
      intro a0 h0
      unfold latestUpd at h0
      by_cases hr : r.device = dev ∧ r.metric = k
      · rw [if_pos hr] at h0
        cases hc : acc with
        | none =>
          rw [hc] at h0
          replace h0 : some r = some a0 := h0
          cases h0
          exact Or.inl ⟨rfl, hr⟩
        | some a1 =>
          rw [hc] at h0
          replace h0 : (if a1.ts ≤ r.ts then some r else some a1) = some a0 := h0
          by_cases hle : a1.ts ≤ r.ts
          · rw [if_pos hle] at h0
            cases h0
            exact Or.inl ⟨rfl, hr⟩
          · rw [if_neg hle] at h0
            exact Or.inr h0
      · rw [if_neg hr] at h0
        exact Or.inr h0
    have hstepts : ∀ a0, acc = some a0 →
        ∃ a1, latestUpd dev k acc r = some a1 ∧ a0.ts ≤ a1.ts := by
      intro a0 h0
      unfold latestUpd
      by_cases hr : r.device = dev ∧ r.metric = k
      · rw [if_pos hr, h0]
        by_cases hle : a0.ts ≤ r.ts
        · refine ⟨r, ?_, hle⟩
          show (if a0.ts ≤ r.ts then some r else some a0) = some r
          rw [if_pos hle]
        · refine ⟨a0, ?_, le_refl _⟩
          show (if a0.ts ≤ r.ts then some r else some a0) = some a0
          rw [if_neg hle]
      · rw [if_neg hr, h0]
        exact ⟨a0, rfl, le_refl _⟩
    refine ⟨?_, ?_, ?_⟩
    · rcases hmem with ⟨hin, hprop⟩ | heq
      · exact Or.inl ⟨List.mem_cons_of_mem _ hin, hprop⟩
      · rcases hstep a heq with ⟨rfl, hprop⟩ | hacc2
        · exact Or.inl ⟨List.mem_cons_self _ _, hprop⟩
        · exact Or.inr hacc2
    · intro r2 hr2 hd hm
      rcases List.mem_cons.mp hr2 with rfl | hr2m
      · have hup : latestUpd dev k acc r2 = some r2 ∨
            ∃ a1, acc = some a1 ∧ latestUpd dev k acc r2 = some a1 ∧ r2.ts ≤ a1.ts := by
          unfold latestUpd
          rw [if_pos ⟨hd, hm⟩]
          cases hc : acc with
          | none => exact Or.inl rfl
          | some a1 =>
            by_cases hle : a1.ts ≤ r2.ts
            · refine Or.inl ?_
              show (if a1.ts ≤ r2.ts then some r2 else some a1) = some r2
              rw [if_pos hle]
            · refine Or.inr ⟨a1, rfl, ?_, le_of_not_le hle⟩
              show (if a1.ts ≤ r2.ts then some r2 else some a1) = some a1
              rw [if_neg hle]
        rcases hup with hup1 | ⟨a1, _, hup2, hts⟩
        · exact hacc r2 hup1
        · exact le_trans hts (hacc a1 hup2)
      · exact hmax r2 hr2m hd hm
    · intro a0 h0
      rcases hstepts a0 h0 with ⟨a1, h1, hts⟩
      exact le_trans hts (hacc a1 h1)

theorem foldl_latestUpd_none (dev k : String) :
    ∀ (store : List TelemetryReading) (acc : Option TelemetryReading),
      store.foldl (latestUpd dev k) acc = none →
      acc = none ∧ ∀ r ∈ store, ¬(r.device = dev ∧ r.metric = k) := by
  intro store
  induction store with
  | nil =>
    intro acc h
    exact ⟨h, fun r hr => absurd hr (List.not_mem_nil r)⟩
  | cons r rest ih =>
    intro acc h
    simp only [List.foldl_cons] at h
    obtain ⟨hstep, hrest⟩ := ih _ h
    have hnr : ¬(r.device = dev ∧ r.metric = k) := by
      intro hr
      unfold latestUpd at hstep
      rw [if_pos hr] at hstep
      cases hc : acc with
      | none =>
        rw [hc] at hstep
        exact Option.noConfusion hstep
      | some a1 =>
        rw [hc] at hstep
        replace hstep : (if a1.ts ≤ r.ts then some r else some a1) = none := hstep
        by_cases hle : a1.ts ≤ r.ts
        · rw [if_pos hle] at hstep
          exact Option.noConfusion hstep
        · rw [if_neg hle] at hstep
          exact Option.noConfusion hstep
    have hacc : acc = none := by
      unfold latestUpd at hstep
      rw [if_neg hnr] at hstep
      exact hstep
    refine ⟨hacc, fun r2 hr2 => ?_⟩
    rcases List.mem_cons.mp hr2 with rfl | hr2m
    · exact hnr
    · exact hrest r2 hr2m

theorem latestReading_append (store : List TelemetryReading)
    (r : TelemetryReading) (dev k : String)
    (hb : ∀ r2 ∈ store, r2.ts ≤ r.ts) :
    latestReading (store ++ [r]) dev k =
      if r.device = dev ∧ r.metric = k then some r
      else latestReading store dev k := by
  unfold latestReading
  rw [List.foldl_append, List.foldl_cons, List.foldl_nil]
  by_cases hr : r.device = dev ∧ r.metric = k
  · rw [if_pos hr]
    cases hc : store.foldl (latestUpd dev k) none with
    | none =>
      unfold latestUpd
      rw [if_pos hr]
    | some a =>
      obtain ⟨hmem, _, _⟩ := foldl_latestUpd_props dev k store none a hc
      rcases hmem with ⟨hin, _⟩ | habs
      · unfold latestUpd
        rw [if_pos hr]
        show (if a.ts ≤ r.ts then some r else some a) = some r
        rw [if_pos (hb a hin)]
      · cases habs
  · rw [if_neg hr]
    unfold latestUpd
    rw [if_neg hr]

/-- The claimed cache/store relationship: every cache entry equals the
value of the most-recent Reading of its metric. -/
def CacheInv (s : IngestState) : Prop :=
  ∀ dev k, lookupAssoc s.cache (dev, k) =
    (latestReading s.store dev k).map (·.value)

def StoreBound (store : List TelemetryReading) (t : Nat) : Prop :=
  ∀ r ∈ store, r.ts ≤ t

theorem processReadings_inv (dev : String) (ts : Nat) (fails : List String) :
    ∀ (items : List (String × Json)) (s : IngestState),
      CacheInv s → StoreBound s.store ts →
      CacheInv (processReadings dev ts fails s items) ∧
      StoreBound (processReadings dev ts fails s items).store ts := by
  intro items
  induction items with
  | nil => intro s hinv hb; exact ⟨hinv, hb⟩
  | cons kv rest ih =>
    intro s hinv hb
    obtain ⟨k, v⟩ := kv
    show CacheInv (processReadings dev ts fails s ((k, v) :: rest)) ∧ _
    unfold processReadings
    by_cases hreg : (lookupAssoc s.registered (dev, k)).isSome = true
    · rw [if_pos hreg]
      by_cases hfail : k ∈ fails
      · rw [if_pos hfail]
        exact ih s hinv hb
      · rw [if_neg hfail]
        refine ih _ ?_ ?_
        · intro dev' k'
          show lookupAssoc (upsertAssoc s.cache (dev, k) v) (dev', k') =
            (latestReading (s.store ++ [⟨dev, k, v, ts⟩]) dev' k').map (·.value)
          rw [lookupAssoc_upsert,
            latestReading_append s.store ⟨dev, k, v, ts⟩ dev' k' (fun r2 h2 => hb r2 h2)]
          by_cases hp : (dev', k') = (dev, k)
          · rw [if_pos hp]
            have hcond : (⟨dev, k, v, ts⟩ : TelemetryReading).device = dev' ∧
                (⟨dev, k, v, ts⟩ : TelemetryReading).metric = k' := by
              obtain ⟨h1, h2⟩ := Prod.mk.injEq .. ▸ hp
              constructor
              · exact (congrArg Prod.fst hp).symm
              · exact (congrArg Prod.snd hp).symm
            rw [if_pos hcond]
            rfl
          · rw [if_neg hp]
            have hcond : ¬((⟨dev, k, v, ts⟩ : TelemetryReading).device = dev' ∧
                (⟨dev, k, v, ts⟩ : TelemetryReading).metric = k') := by
              intro hcon
              exact hp (Prod.ext hcon.1.symm hcon.2.symm)
            rw [if_neg hcond]
            exact hinv dev' k'
        · intro r hr
          rcases List.mem_append.mp hr with hr1 | hr2
          · exact hb r hr1
          · rcases List.mem_singleton.mp hr2 with rfl
            exact le_refl _
    · rw [if_neg hreg]
      exact ⟨hinv, hb⟩

def msgTs : Msg → Nat
  | .sensor m => m.ts
  | .relay m => m.ts
  | .heartbeat _ t => t
  | .discovery _ _ t => t

/-- Timestamps strictly increase along the message sequence and exceed
everything already stored (processing times come from a monotone clock). -/
def FreshSeq : Nat → List Msg → Prop
  | _, [] => True
  | t, m :: rest => t < msgTs m ∧ FreshSeq (msgTs m) rest

theorem touchDevice_cache (s : IngestState) (dev : String) :
    (touchDevice s dev).cache = s.cache := rfl

theorem touchDevice_store (s : IngestState) (dev : String) :
    (touchDevice s dev).store = s.store := rfl

theorem stepMsg_inv (m : Msg) (s : IngestState) (t : Nat)
    (hinv : CacheInv s) (hb : StoreBound s.store t) (hts : t ≤ msgTs m) :
    CacheInv (stepMsg s m) ∧ StoreBound (stepMsg s m).store (msgTs m) := by
  have hb2 : StoreBound s.store (msgTs m) := fun r hr => le_trans (hb r hr) hts
  cases m with
  | sensor m =>
    show CacheInv (handle_sensor_data s m) ∧
      StoreBound (handle_sensor_data s m).store m.ts
    unfold handle_sensor_data
    cases hdev : deviceIdOf m with
    | none => exact ⟨hinv, hb2⟩
    | some dev =>
      dsimp only
      by_cases hdisc : dev ∈ s.discoveryCompleted
      · rw [if_pos hdisc]
        by_cases hemp : (flatten_sensor_payload m.payload).isEmpty = true
        · rw [if_pos hemp]
          exact ⟨hinv, hb2⟩
        · rw [if_neg hemp]
          exact processReadings_inv dev m.ts m.persistFails
            (flatten_sensor_payload m.payload) (touchDevice s dev) hinv hb2
      · rw [if_neg hdisc]
        exact ⟨hinv, hb2⟩
  | relay m =>
    show CacheInv (handle_relay_status s m) ∧
      StoreBound (handle_relay_status s m).store m.ts
    unfold handle_relay_status
    cases hdev : deviceIdOf m with
    | none => exact ⟨hinv, hb2⟩
    | some dev =>
      dsimp only
      by_cases hemp : (relayFilter m.payload).isEmpty = true
      · rw [if_pos hemp]
        exact ⟨hinv, hb2⟩
      · rw [if_neg hemp]
        exact processReadings_inv dev m.ts m.persistFails
          (relayFilter m.payload) (touchDevice s dev) hinv hb2
  | heartbeat dev t' => exact ⟨hinv, hb2⟩
  | discovery dev defs t' =>
    show CacheInv (handle_discovery s dev defs) ∧
      StoreBound (handle_discovery s dev defs).store t'
    cases dev with
    | none => exact ⟨hinv, hb2⟩
    | some d => exact ⟨hinv, hb2⟩

theorem runMsgs_inv :
    ∀ (msgs : List Msg) (s : IngestState) (t : Nat),
      CacheInv s → StoreBound s.store t → FreshSeq t msgs →
      CacheInv (runMsgs s msgs) := by
  intro msgs
  induction msgs with
  | nil => intro s t hinv _ _; exact hinv
  | cons m rest ih =>
    intro s t hinv hb hfresh
    obtain ⟨hlt, hrest⟩ := hfresh
    obtain ⟨hinv2, hb2⟩ := stepMsg_inv m s t hinv hb (le_of_lt hlt)
    exact ih (stepMsg s m) (msgTs m) hinv2 hb2 hrest

/-! ### Startup cache population (`populate_cache_from_db` /
`_latest_metric_rows_for_cache`): the SQL query selects every Reading row
whose timestamp equals the per-metric maximum, and the rows are poured
into the cache dict in order. -/

def latestRows (store : List TelemetryReading) : List TelemetryReading :=
  store.filter (fun r => store.all (fun r2 =>
    if r2.device = r.device ∧ r2.metric = r.metric then decide (r2.ts ≤ r.ts)
    else true))

def populate_cache_from_db (store : List TelemetryReading) :
    List ((String × String) × Json) :=
  (latestRows store).foldl
    (fun c r => upsertAssoc c (r.device, r.metric) r.value) []

/-- The last row of a list carrying the given metric. -/
def lastValFor : List TelemetryReading → String → String → Option TelemetryReading
  | [], _, _ => none
  | r :: rest, dev, k =>
    match lastValFor rest dev k with
    | some r' => some r'
    | none => if r.device = dev ∧ r.metric = k then some r else none

theorem fold_upsert_cache_lookup :
    ∀ (l : List TelemetryReading) (c0 : List ((String × String) × Json))
      (dev k : String),
      lookupAssoc (l.foldl
        (fun c r => upsertAssoc c (r.device, r.metric) r.value) c0) (dev, k) =
      match lastValFor l dev k with
      | some r => some r.value
      | none => lookupAssoc c0 (dev, k) := by
  intro l
  induction l with
  | nil => intro c0 dev k; rfl
  | cons r rest ih =>
    intro c0 dev k
    simp only [List.foldl_cons]
    rw [ih]
    show _ = (match (match lastValFor rest dev k with
      | some r' => some r'
      | none => if r.device = dev ∧ r.metric = k then some r else none) with
      | some r2 => some r2.value
      | none => lookupAssoc c0 (dev, k))
    cases hlast : lastValFor rest dev k with
    | some r' => rfl
    | none =>
      show lookupAssoc (upsertAssoc c0 (r.device, r.metric) r.value) (dev, k) = _
      rw [lookupAssoc_upsert]
      by_cases hm : r.device = dev ∧ r.metric = k
      · rw [if_pos hm]
        rw [if_pos (Prod.ext hm.1.symm hm.2.symm : (dev, k) = (r.device, r.metric))]
      · rw [if_neg hm]
        have hne : ¬((dev, k) = (r.device, r.metric)) := by
          intro hcon
          exact hm ⟨(congrArg Prod.fst hcon).symm, (congrArg Prod.snd hcon).symm⟩
        rw [if_neg hne]

theorem lastValFor_some (l : List TelemetryReading) (dev k : String)
    (r : TelemetryReading) (h : lastValFor l dev k = some r) :
    r ∈ l ∧ r.device = dev ∧ r.metric = k := by
  induction l with
  | nil => cases h
  | cons r0 rest ih =>
    unfold lastValFor at h
    cases hlast : lastValFor rest dev k with
    | some r' =>
      rw [hlast] at h
      replace h : some r' = some r := h
      cases h
      obtain ⟨hmem, hp⟩ := ih hlast
      exact ⟨List.mem_cons_of_mem _ hmem, hp⟩
    | none =>
      rw [hlast] at h
      replace h : (if r0.device = dev ∧ r0.metric = k then some r0 else none) =
        some r := h
      by_cases hm : r0.device = dev ∧ r0.metric = k
      · rw [if_pos hm] at h
        cases h
        exact ⟨List.mem_cons_self _ _, hm⟩
      · rw [if_neg hm] at h
        cases h

theorem lastValFor_none (l : List TelemetryReading) (dev k : String)
    (h : lastValFor l dev k = none) :
    ∀ r ∈ l, ¬(r.device = dev ∧ r.metric = k) := by
  induction l with
  | nil => exact fun r hr => absurd hr (List.not_mem_nil r)
  | cons r0 rest ih =>
    unfold lastValFor at h
    cases hlast : lastValFor rest dev k with
    | some r' =>
      rw [hlast] at h
      exact absurd h (by simp)
    | none =>
      rw [hlast] at h
      replace h : (if r0.device = dev ∧ r0.metric = k then some r0 else none) =
        none := h
      intro r hr
      rcases List.mem_cons.mp hr with rfl | hmem
      · intro hm
        rw [if_pos hm] at h
        cases h
      · exact ih hlast r hmem

theorem mem_latestRows (store : List TelemetryReading) (r : TelemetryReading) :
    r ∈ latestRows store ↔
      r ∈ store ∧ ∀ r2 ∈ store, r2.device = r.device → r2.metric = r.metric →
        r2.ts ≤ r.ts := by
  unfold latestRows
  rw [List.mem_filter]
  constructor
  · rintro ⟨hmem, hall⟩
    refine ⟨hmem, fun r2 h2 hd hm => ?_⟩
    have := List.all_eq_true.mp hall r2 h2
    rw [if_pos ⟨hd, hm⟩] at this
    exact of_decide_eq_true this
  · rintro ⟨hmem, hmax⟩
    refine ⟨hmem, List.all_eq_true.mpr fun r2 h2 => ?_⟩
    by_cases hm : r2.device = r.device ∧ r2.metric = r.metric
    · rw [if_pos hm]
      exact decide_eq_true (hmax r2 h2 hm.1 hm.2)
    · rw [if_neg hm]

/-- Readings of the same metric with the same timestamp carry the same
value (guaranteed by the monotone processing clock: each message gets a
fresh timestamp). -/
def TsCoherent (store : List TelemetryReading) : Prop :=
  ∀ r1 ∈ store, ∀ r2 ∈ store, r1.device = r2.device → r1.metric = r2.metric →
    r1.ts = r2.ts → r1.value = r2.value

theorem populate_lookup (store : List TelemetryReading) (hco : TsCoherent store)
    (dev k : String) :
    lookupAssoc (populate_cache_from_db store) (dev, k) =
      (latestReading store dev k).map (·.value) := by
  unfold populate_cache_from_db
  rw [fold_upsert_cache_lookup]
  cases hl : latestReading store dev k with
  | none =>
    have hnomatch := (foldl_latestUpd_none dev k store none hl).2
    cases hlv : lastValFor (latestRows store) dev k with
    | none => rfl
    | some b =>
      obtain ⟨hbmem, hbp⟩ := lastValFor_some _ _ _ _ hlv
      obtain ⟨hbstore, _⟩ := (mem_latestRows store b).mp hbmem
      exact absurd hbp (hnomatch b hbstore)
  | some a =>
    obtain ⟨hmem, hmax, _⟩ := foldl_latestUpd_props dev k store none a hl
    rcases hmem with ⟨hamem, hadev, hamet⟩ | habs
    · have hain : a ∈ latestRows store := by
        rw [mem_latestRows]
        refine ⟨hamem, fun r2 h2 hd hm => ?_⟩
        exact hmax r2 h2 (hadev ▸ hd) (hamet ▸ hm)
      cases hlv : lastValFor (latestRows store) dev k with
      | none =>
        exact absurd ⟨hadev, hamet⟩ (lastValFor_none _ _ _ hlv a hain)
      | some b =>
        obtain ⟨hbmem, hbdev, hbmet⟩ := lastValFor_some _ _ _ _ hlv
        obtain ⟨hbstore, hbmax⟩ := (mem_latestRows store b).mp hbmem
        have h1 : b.ts ≤ a.ts := hmax b hbstore hbdev hbmet
        have h2 : a.ts ≤ b.ts := hbmax a hamem (by rw [hadev, hbdev])
          (by rw [hamet, hbmet])
        have hval : a.value = b.value := hco a hamem b hbstore
          (by rw [hadev, hbdev]) (by rw [hamet, hbmet]) (le_antisymm h2 h1)
        show some b.value = some a.value
        rw [hval]
    · cases habs

/-- C4. (1) Processing any sequence of telemetry messages (with the
monotone processing clock) preserves the cache/store relationship: after
every sequence the Value Cache entry of each `(device_key, metric_key)`
equals the value of the most-recent-by-timestamp Reading persisted for
that metric.  (2) The cache populated at startup from the store's latest
reading per metric satisfies the same relationship. -/
theorem value_cache_equals_latest_reading :
    (∀ (s : IngestState) (t : Nat) (msgs : List Msg),
      CacheInv s → StoreBound s.store t → FreshSeq t msgs →
      CacheInv (runMsgs s msgs)) ∧
    (∀ (store : List TelemetryReading), TsCoherent store →
      ∀ dev k, lookupAssoc (populate_cache_from_db store) (dev, k) =
        (latestReading store dev k).map (·.value)) := by
  exact ⟨fun s t msgs hinv hb hfresh => runMsgs_inv msgs s t hinv hb hfresh,
    populate_lookup⟩

/-- Witness for `value_cache_equals_latest_reading`: two sensor messages
for the same metric processed from an empty state, and population from a
one-row store. -/
theorem value_cache_witness :
    CacheInv (runMsgs ⟨["grow1"], [(("grow1", "ph"), "sensor")], ["grow1"], [], []⟩
      [.sensor ⟨some "grow1", [("ph", .num 58)], 1, []⟩,
       .sensor ⟨some "grow1", [("ph", .num 62)], 2, []⟩]) ∧
    (∀ dev k,
      lookupAssoc (populate_cache_from_db [⟨"grow1", "ph", .num 58, 1⟩]) (dev, k) =
        (latestReading [⟨"grow1", "ph", .num 58, 1⟩] dev k).map (·.value)) := by
  constructor
  · exact value_cache_equals_latest_reading.1
      ⟨["grow1"], [(("grow1", "ph"), "sensor")], ["grow1"], [], []⟩ 0
      [.sensor ⟨some "grow1", [("ph", .num 58)], 1, []⟩,
       .sensor ⟨some "grow1", [("ph", .num 62)], 2, []⟩]
      (fun dev k => rfl)
      (fun r hr => absurd hr (List.not_mem_nil r))
      ⟨Nat.zero_lt_one, Nat.one_lt_two, trivial⟩
  · exact value_cache_equals_latest_reading.2 [⟨"grow1", "ph", .num 58, 1⟩]
      (fun r1 h1 r2 h2 _ _ _ => by
        rcases List.mem_singleton.mp h1 with rfl
        rcases List.mem_singleton.mp h2 with rfl
        rfl)

theorem touchDevice_mem (s : IngestState) (dev : String) :
    dev ∈ (touchDevice s dev).devices := by
  unfold touchDevice
  by_cases h : dev ∈ s.devices
  · rw [if_pos h]
    exact h
  · rw [if_neg h]
    exact List.mem_append_right _ (List.mem_singleton.mpr rfl)

theorem processReadings_devices (dev : String) (ts : Nat) (fails : List String) :
    ∀ (items : List (String × Json)) (s : IngestState),
      (processReadings dev ts fails s items).devices = s.devices := by
  intro items
  induction items with
  | nil => intro s; rfl
  | cons kv rest ih =>
    intro s
    obtain ⟨k, v⟩ := kv
    unfold processReadings
    by_cases hreg : (lookupAssoc s.registered (dev, k)).isSome = true
    · rw [if_pos hreg]
      by_cases hfail : k ∈ fails
      · rw [if_pos hfail]
        exact ih s
      · rw [if_neg hfail]
        exact ih _
    · rw [if_neg hreg]

/-- C8 (amended). A Device record is created (or refreshed) on the first
discovery, heartbeat, or relay/actuator-status message referencing it;
a sensor-data message creates the Device and persists Readings only when
the device has already completed discovery — a sensor-data message for a
device that has not completed discovery is dropped without creating
anything. -/
theorem device_creation_amended :
    (∀ (s : IngestState) (dev : String) (t : Nat),
      dev ∈ (stepMsg s (.heartbeat dev t)).devices) ∧
    (∀ (s : IngestState) (dev : String) (defs : List (String × String)) (t : Nat),
      dev ∈ (stepMsg s (.discovery (some dev) defs t)).devices ∧
      dev ∈ (stepMsg s (.discovery (some dev) defs t)).discoveryCompleted) ∧
    (∀ (s : IngestState) (m : TelemetryMsg) (dev : String),
      deviceIdOf m = some dev →
      (relayFilter m.payload).isEmpty = false →
      dev ∈ (stepMsg s (.relay m)).devices) ∧
    (∀ (s : IngestState) (m : TelemetryMsg) (dev : String),
      deviceIdOf m = some dev → dev ∈ s.discoveryCompleted →
      (flatten_sensor_payload m.payload).isEmpty = false →
      dev ∈ (stepMsg s (.sensor m)).devices) ∧
    (∀ (s : IngestState) (m : TelemetryMsg) (dev : String),
      deviceIdOf m = some dev → dev ∉ s.discoveryCompleted →
      stepMsg s (.sensor m) = s) := by
  refine ⟨?_, ?_, ?_, ?_, ?_⟩
  · intro s dev t
    exact touchDevice_mem s dev
  · intro s dev defs t
    constructor
    · show dev ∈ (handle_discovery s (some dev) defs).devices
      unfold handle_discovery
      exact touchDevice_mem s dev
    · show dev ∈ (handle_discovery s (some dev) defs).discoveryCompleted
      unfold handle_discovery
      dsimp only
      by_cases h : dev ∈ (touchDevice s dev).discoveryCompleted
      · rw [if_pos h]
        exact h
      · rw [if_neg h]
        exact List.mem_append_right _ (List.mem_singleton.mpr rfl)
  · intro s m dev hdev hemp
    show dev ∈ (handle_relay_status s m).devices
    unfold handle_relay_status
    rw [hdev]
    dsimp only
    rw [if_neg (by rw [hemp]; exact Bool.false_ne_true)]
    rw [processReadings_devices]
    exact touchDevice_mem s dev
  · intro s m dev hdev hdisc hemp
    show dev ∈ (handle_sensor_data s m).devices
    unfold handle_sensor_data
    rw [hdev]
    dsimp only
    rw [if_pos hdisc]
    rw [if_neg (by rw [hemp]; exact Bool.false_ne_true)]
    rw [processReadings_devices]
    exact touchDevice_mem s dev
  · intro s m dev hdev hdisc
    show handle_sensor_data s m = s
    unfold handle_sensor_data
    rw [hdev]
    dsimp only
    rw [if_neg hdisc]

/-- Witness for `device_creation_amended` at concrete inputs. -/
theorem device_creation_witness :
    ("grow1" : String) ∈ (stepMsg ⟨[], [], [], [], []⟩
      (.heartbeat "grow1" 1)).devices ∧
    ("grow1" : String) ∈ (stepMsg ⟨[], [], [], [], []⟩
      (.discovery (some "grow1") [("ph", "sensor")] 1)).discoveryCompleted ∧
    ("grow1" : String) ∈ (stepMsg ⟨[], [], [], [], []⟩
      (.relay ⟨some "grow1", [("relay1", .str "on")], 1, []⟩)).devices ∧
    stepMsg ⟨[], [], [], [], []⟩
      (.sensor ⟨some "grow1", [("ph", .num 58)], 1, []⟩) = ⟨[], [], [], [], []⟩ := by
  refine ⟨?_, ?_, ?_, ?_⟩
  · exact device_creation_amended.1 ⟨[], [], [], [], []⟩ "grow1" 1
  · exact (device_creation_amended.2.1 ⟨[], [], [], [], []⟩ "grow1"
      [("ph", "sensor")] 1).2
  · exact device_creation_amended.2.2.1 ⟨[], [], [], [], []⟩
      ⟨some "grow1", [("relay1", .str "on")], 1, []⟩ "grow1" rfl rfl
  · exact device_creation_amended.2.2.2.2 ⟨[], [], [], [], []⟩
      ⟨some "grow1", [("ph", .num 58)], 1, []⟩ "grow1" rfl
      (by intro h; exact absurd h (List.not_mem_nil _))

/-! ## Actuator Command Publisher rate limiter (`_publish_rate_limited`,
`_delayed_flush`, `_flush_actuator_bucket`,
`src/backend/mqtt_client.py` lines 940-1005)

Per-topic state: `last_sent` (time of the last publish), an accumulator
keyed by actuator (`bucket['accumulator'][actuator] = payload`, i.e.
`upsertAssoc`), and the set of scheduled deferred flushes.  A submission
merges its payload, publishes immediately when `min_interval` has
elapsed (or nothing was ever sent), and otherwise schedules a flush at
`last_sent + min_interval`.  A deferred flush publishes the accumulator
if nonempty.  Time is `Nat` (think milliseconds); `minI` is the minimum
publish interval `1/rateHz`.

The asyncio loop is modelled deterministically: every due deferred
flush runs at its scheduled time, before any event with a later
timestamp (timely timers).  `advanceAux` fires the due flushes in
schedule order before a submission is processed; `finishAux` drains the
remaining flushes at the end of a trace.
-/

structure APayload where
  device_id : String
  actuator : String
  state : String
  relay : Option Int
deriving DecidableEq, Repr

/-- What one transport publish carries: a single payload, or the batched
`{device_id, batched: true, commands}` wrapper. -/
inductive PubOut where
  | single (p : APayload)
  | batched (device_id : String) (commands : List APayload)
deriving DecidableEq, Repr

structure Bucket where
  lastSent : Option Nat
  acc : List (String × APayload)
  pending : List Nat
deriving DecidableEq, Repr

/-- `_flush_actuator_bucket`'s payload construction: a lone accumulator
entry is sent as-is, several are wrapped in a batched payload. -/
def mkOut (acc : List (String × APayload)) : PubOut :=
  match acc.map (·.2) with
  | [p] => .single p
  | ps => .batched (((ps.head?).map (·.device_id)).getD "") ps

/-- `_publish_rate_limited`: merge into the accumulator, publish now if
allowed, else schedule a deferred flush at `last_sent + min_interval`. -/
def submitCmd (minI t : Nat) (p : APayload) (b : Bucket) :
    Bucket × Option PubOut :=
  let acc2 := upsertAssoc b.acc p.actuator p
  match b.lastSent with
  | none => (⟨some t, [], b.pending⟩, some (mkOut acc2))
  | some ls =>
    if ls + minI ≤ t then (⟨some t, [], b.pending⟩, some (mkOut acc2))
    else (⟨some ls, acc2, b.pending ++ [ls + minI]⟩, none)

/-- Run the due deferred flushes (`_delayed_flush` bodies) scheduled at
or before `t`, in order; each flush publishes the accumulator when
nonempty (and is a no-op otherwise).  Returns `(lastSent, acc, pending)`
and the emitted publishes. -/
def advanceAux (t : Nat) : List Nat → Option Nat → List (String × APayload) →
    (Option Nat × List (String × APayload) × List Nat) × List (Nat × PubOut)
  | [], ls, acc => ((ls, acc, []), [])
  | f :: rest, ls, acc =>
    if f ≤ t then
      if acc.isEmpty then advanceAux t rest ls acc
      else
        let res := advanceAux t rest (some f) []
        (res.1, (f, mkOut acc) :: res.2)
    else ((ls, acc, f :: rest), [])

def advanceB (t : Nat) (b : Bucket) : Bucket × List (Nat × PubOut) :=
  let res := advanceAux t b.pending b.lastSent b.acc
  (⟨res.1.1, res.1.2.1, res.1.2.2⟩, res.2)

/-- Process one submission at time `t`: run due flushes, then
`_publish_rate_limited`. -/
def runSubmit (minI : Nat) (b : Bucket) (t : Nat) (p : APayload) :
    Bucket × List (Nat × PubOut) :=
  let av := advanceB t b
  let sub := submitCmd minI t p av.1
  (sub.1, av.2 ++ (match sub.2 with | some o => [(t, o)] | none => []))

def runRL (minI : Nat) : Bucket → List (Nat × APayload) →
    Bucket × List (Nat × PubOut)
  | b, [] => (b, [])
  | b, (t, p) :: rest =>
    let st := runSubmit minI b t p
    let cont := runRL minI st.1 rest
    (cont.1, st.2 ++ cont.2)

/-- Drain the remaining deferred flushes at their scheduled times. -/
def finishAux : List Nat → List (String × APayload) → List (Nat × PubOut)
  | [], _ => []
  | f :: rest, acc =>
    if acc.isEmpty then finishAux rest acc
    else (f, mkOut acc) :: finishAux rest []

/-- All publishes a command trace causes on one topic, deferred flushes
included. -/
def rlPublishes (minI : Nat) (b : Bucket) (cmds : List (Nat × APayload)) :
    List (Nat × PubOut) :=
  (runRL minI b cmds).2 ++ finishAux (runRL minI b cmds).1.pending
    (runRL minI b cmds).1.acc

/-- The last-submitted payload per actuator key. -/
def lastCmdFor : List (Nat × APayload) → String → Option APayload
  | [], _ => none
  | c :: rest, key =>
    match lastCmdFor rest key with
    | some p => some p
    | none => if c.2.actuator = key then some c.2 else none

def accOf (cmds : List (Nat × APayload)) : List (String × APayload) :=
  cmds.foldl (fun a c => upsertAssoc a c.2.actuator c.2) []

def outValues : PubOut → List APayload
  | .single p => [p]
  | .batched _ ps => ps

theorem outValues_mkOut (l : List (String × APayload)) :
    outValues (mkOut l) = l.map (·.2) := by
  unfold mkOut
  cases hm : l.map (·.2) with
  | nil => rfl
  | cons p rest =>
    cases rest with
    | nil => rfl
    | cons q rest2 => rfl

theorem fold_upsert_cmd_lookup :
    ∀ (cmds : List (Nat × APayload)) (acc0 : List (String × APayload))
      (key : String),
      lookupAssoc (cmds.foldl (fun a c => upsertAssoc a c.2.actuator c.2) acc0)
        key =
      match lastCmdFor cmds key with
      | some p => some p
      | none => lookupAssoc acc0 key := by
  intro cmds
  induction cmds with
  | nil => intro acc0 key; rfl
  | cons c rest ih =>
    intro acc0 key
    simp only [List.foldl_cons]
    rw [ih]
    show _ = (match (match lastCmdFor rest key with
      | some p => some p
      | none => if c.2.actuator = key then some c.2 else none) with
      | some p => some p
      | none => lookupAssoc acc0 key)
    cases hlast : lastCmdFor rest key with
    | some p => rfl
    | none =>
      show lookupAssoc (upsertAssoc acc0 c.2.actuator c.2) key = _
      rw [lookupAssoc_upsert]
      by_cases hk : key = c.2.actuator
      · rw [if_pos hk, if_pos hk.symm]
      · rw [if_neg hk, if_neg (fun h => hk h.symm)]

theorem advance_noop (t : Nat) (pending : List Nat) (ls : Option Nat)
    (acc : List (String × APayload)) (h : ∀ f ∈ pending, t < f) :
    advanceAux t pending ls acc = ((ls, acc, pending), []) := by
  cases pending with
  | nil => rfl
  | cons f rest =>
    unfold advanceAux
    rw [if_neg (Nat.not_le_of_lt (h f (List.mem_cons_self _ _)))]

theorem upsertAssoc_ne_nil {α β : Type} [DecidableEq α]
    (l : List (α × β)) (k : α) (v : β) : upsertAssoc l k v ≠ [] := by
  unfold upsertAssoc
  by_cases hany : l.any (fun p => p.1 = k) = true
  · rw [if_pos hany]
    cases l with
    | nil => simp at hany
    | cons p rest => simp
  · rw [if_neg hany]
    simp

theorem submit_defer (minI t : Nat) (p : APayload) (ls : Nat)
    (acc : List (String × APayload)) (pending : List Nat)
    (h : ¬ (ls + minI ≤ t)) :
    submitCmd minI t p ⟨some ls, acc, pending⟩ =
      (⟨some ls, upsertAssoc acc p.actuator p, pending ++ [ls + minI]⟩, none) := by
  unfold submitCmd
  dsimp only
  rw [if_neg h]

theorem runRL_window (minI t0 : Nat) :
    ∀ (cmds : List (Nat × APayload)) (acc0 : List (String × APayload)) (n : Nat),
      (∀ c ∈ cmds, c.1 < t0 + minI) →
      runRL minI ⟨some t0, acc0, List.replicate n (t0 + minI)⟩ cmds =
        (⟨some t0,
          cmds.foldl (fun a c => upsertAssoc a c.2.actuator c.2) acc0,
          List.replicate (n + cmds.length) (t0 + minI)⟩, []) := by
  intro cmds
  induction cmds with
  | nil => intro acc0 n _; simp [runRL]
  | cons c rest ih =>
    intro acc0 n hwin
    obtain ⟨t, p⟩ := c
    have ht : t < t0 + minI := hwin (t, p) (List.mem_cons_self _ _)
    show runRL minI _ ((t, p) :: rest) = _
    simp only [runRL, runSubmit, advanceB]
    rw [advance_noop t (List.replicate n (t0 + minI)) (some t0) acc0
      (fun f hf => by rw [List.eq_of_mem_replicate hf]; exact ht)]
    dsimp only
    rw [submit_defer minI t p t0 acc0 (List.replicate n (t0 + minI))
      (Nat.not_le_of_lt ht)]
    dsimp only
    rw [← List.replicate_succ' n (t0 + minI)]
    rw [ih (upsertAssoc acc0 p.actuator p) (n + 1)
      (fun c2 h2 => hwin c2 (List.mem_cons_of_mem _ h2))]
    simp only [List.foldl_cons, List.length_cons, List.nil_append, List.append_nil]
    have hlen : n + 1 + rest.length = n + (rest.length + 1) := by omega
    rw [hlen]

theorem finishAux_nil_acc : ∀ pending : List Nat, finishAux pending [] = [] := by
  intro pending
  induction pending with
  | nil => rfl
  | cons f rest ih =>
    exact ih

theorem isEmpty_false_of_ne_nil {α : Type} (l : List α) (h : l ≠ []) :
    l.isEmpty = false := by
  cases l with
  | nil => exact absurd rfl h
  | cons a rest => rfl

theorem finishAux_replicate (m v : Nat) (acc : List (String × APayload))
    (hacc : acc ≠ []) (hm : 0 < m) :
    finishAux (List.replicate m v) acc = [(v, mkOut acc)] := by
  cases m with
  | zero => exact absurd hm (by simp)
  | succ m2 =>
    rw [List.replicate_succ]
    unfold finishAux
    rw [if_neg (by rw [isEmpty_false_of_ne_nil acc hacc]; exact Bool.false_ne_true)]
    rw [finishAux_nil_acc]

theorem foldl_upsert_cmds_ne_nil :
    ∀ (cmds : List (Nat × APayload)) (acc : List (String × APayload)),
      acc ≠ [] →
      cmds.foldl (fun a c => upsertAssoc a c.2.actuator c.2) acc ≠ [] := by
  intro cmds
  induction cmds with
  | nil => intro acc h; exact h
  | cons c rest ih =>
    intro acc _
    simp only [List.foldl_cons]
    exact ih _ (upsertAssoc_ne_nil acc c.2.actuator c.2)

theorem accOf_ne_nil (cmds : List (Nat × APayload)) (h : cmds ≠ []) :
    accOf cmds ≠ [] := by
  cases cmds with
  | nil => exact absurd rfl h
  | cons c rest =>
    show rest.foldl (fun a c => upsertAssoc a c.2.actuator c.2)
      (upsertAssoc [] c.2.actuator c.2) ≠ []
    exact foldl_upsert_cmds_ne_nil rest _ (upsertAssoc_ne_nil [] c.2.actuator c.2)

/-! ### Spacing: consecutive publishes on one topic are at least
`min_interval` apart. -/

/-- Publishes are spaced at least `minI` after the seed time and after
each other. -/
def SpacedFrom (minI : Nat) : Option Nat → List (Nat × PubOut) → Prop
  | _, [] => True
  | none, o :: rest => SpacedFrom minI (some o.1) rest
  | some ls, o :: rest => ls + minI ≤ o.1 ∧ SpacedFrom minI (some o.1) rest

def lastTimeFrom (seed : Option Nat) : List (Nat × PubOut) → Option Nat
  | [] => seed
  | o :: rest => lastTimeFrom (some o.1) rest

/-- The bucket invariant: every scheduled flush time is exactly
`last_sent + min_interval` (and nothing is scheduled or accumulated
before the first publish). -/
def INVB (minI : Nat) (b : Bucket) : Prop :=
  match b.lastSent with
  | none => b.pending = [] ∧ b.acc = []
  | some ls => ∀ f ∈ b.pending, f = ls + minI

theorem spacedFrom_append (minI : Nat) :
    ∀ (l1 : List (Nat × PubOut)) (seed : Option Nat) (l2 : List (Nat × PubOut)),
      SpacedFrom minI seed l1 → SpacedFrom minI (lastTimeFrom seed l1) l2 →
      SpacedFrom minI seed (l1 ++ l2) := by
  intro l1
  induction l1 with
  | nil => intro seed l2 _ h2; exact h2
  | cons o rest ih =>
    intro seed l2 h1 h2
    cases seed with
    | none =>
      show SpacedFrom minI (some o.1) (rest ++ l2)
      exact ih (some o.1) l2 h1 h2
    | some ls =>
      obtain ⟨hle, h1r⟩ := h1
      exact ⟨hle, ih (some o.1) l2 h1r h2⟩

theorem advance_empty_acc (t : Nat) :
    ∀ (pending : List Nat) (ls : Option Nat),
      (∀ f ∈ pending, f ≤ t) →
      advanceAux t pending ls [] = ((ls, [], []), []) := by
  intro pending
  induction pending with
  | nil => intro ls _; rfl
  | cons f rest ih =>
    intro ls h
    unfold advanceAux
    rw [if_pos (h f (List.mem_cons_self _ _))]
    exact ih ls (fun f2 h2 => h f2 (List.mem_cons_of_mem _ h2))

theorem advance_props (minI t : Nat) (b : Bucket) (hinv : INVB minI b) :
    INVB minI (advanceB t b).1 ∧
    SpacedFrom minI b.lastSent (advanceB t b).2 ∧
    (advanceB t b).1.lastSent = lastTimeFrom b.lastSent (advanceB t b).2 ∧
    ((advanceB t b).1.pending = [] ∨ ∀ f ∈ (advanceB t b).1.pending, t < f) := by
  obtain ⟨ls0, acc, pending⟩ := b
  cases ls0 with
  | none =>
    obtain ⟨hp, ha⟩ := hinv
    subst hp
    subst ha
    exact ⟨⟨rfl, rfl⟩, trivial, rfl, Or.inl rfl⟩
  | some ls =>
    have hall : ∀ f ∈ pending, f = ls + minI := hinv
    cases hpend : pending with
    | nil =>
      refine ⟨?_, trivial, rfl, Or.inl rfl⟩
      show INVB minI ⟨some ls, acc, []⟩
      exact fun f hf => absurd hf (List.not_mem_nil f)
    | cons f rest =>
      have hf : f = ls + minI := hall f (hpend ▸ List.mem_cons_self _ _)
      have hrest : ∀ f2 ∈ rest, f2 = ls + minI :=
        fun f2 h2 => hall f2 (hpend ▸ List.mem_cons_of_mem _ h2)
      by_cases hle : f ≤ t
      · by_cases hacc : acc.isEmpty = true
        · have hacc2 : acc = [] := by
            cases acc with
            | nil => rfl
            | cons a r => cases hacc
          subst hacc2
          have hres : advanceAux t (f :: rest) (some ls) [] =
              ((some ls, [], []), []) := by
            apply advance_empty_acc
            intro f2 h2
            rcases List.mem_cons.mp h2 with rfl | h2m
            · exact hle
            · rw [hrest f2 h2m, ← hf]
              exact hle
          show INVB minI (advanceB t ⟨some ls, [], f :: rest⟩).1 ∧ _
          unfold advanceB
          rw [hres]
          exact ⟨fun f2 h2 => absurd h2 (List.not_mem_nil f2), trivial, rfl,
            Or.inl rfl⟩
        · have hres : advanceAux t (f :: rest) (some ls) acc =
              ((some f, [], []), [(f, mkOut acc)]) := by
            unfold advanceAux
            rw [if_pos hle,
              if_neg (by
                rw [isEmpty_false_of_ne_nil acc (by
                  intro hnil
                  rw [hnil] at hacc
                  exact hacc rfl)]
                exact Bool.false_ne_true)]
            rw [advance_empty_acc t rest (some f) (fun f2 h2 => by
              rw [hrest f2 h2, ← hf]
              exact hle)]
          show INVB minI (advanceB t ⟨some ls, acc, f :: rest⟩).1 ∧ _
          unfold advanceB
          rw [hres]
          refine ⟨fun f2 h2 => absurd h2 (List.not_mem_nil f2), ?_, rfl, Or.inl rfl⟩
          exact ⟨hf ▸ le_refl _, trivial⟩
      · have hres : advanceAux t (f :: rest) (some ls) acc =
            ((some ls, acc, f :: rest), []) := by
          unfold advanceAux
          rw [if_neg hle]
        show INVB minI (advanceB t ⟨some ls, acc, f :: rest⟩).1 ∧ _
        unfold advanceB
        rw [hres]
        refine ⟨hpend ▸ hinv, trivial, rfl, Or.inr ?_⟩
        intro f2 h2
        rcases List.mem_cons.mp h2 with rfl | h2m
        · exact Nat.lt_of_not_le hle
        · rw [hrest f2 h2m, ← hf]
          exact Nat.lt_of_not_le hle

theorem submit_props (minI t : Nat) (p : APayload) (b : Bucket)
    (hinv : INVB minI b)
    (hpend : b.pending = [] ∨ ∀ f ∈ b.pending, t < f) :
    INVB minI (submitCmd minI t p b).1 ∧
    ((submitCmd minI t p b).2 = none →
      (submitCmd minI t p b).1.lastSent = b.lastSent) ∧
    (∀ o, (submitCmd minI t p b).2 = some o →
      (submitCmd minI t p b).1.lastSent = some t ∧
      (match b.lastSent with
       | none => True
       | some ls => ls + minI ≤ t)) := by
  obtain ⟨ls0, acc, pending⟩ := b
  cases ls0 with
  | none =>
    obtain ⟨hp, ha⟩ := hinv
    subst hp
    subst ha
    exact ⟨fun f hf => absurd hf (List.not_mem_nil f),
      fun hnone => Option.noConfusion hnone,
      fun o _ => ⟨rfl, trivial⟩⟩
  | some ls =>
    show INVB minI (submitCmd minI t p ⟨some ls, acc, pending⟩).1 ∧ _
    unfold submitCmd
    dsimp only
    by_cases hle : ls + minI ≤ t
    · rw [if_pos hle]
      refine ⟨?_, fun hnone => Option.noConfusion hnone, fun o _ => ⟨rfl, hle⟩⟩
      intro f hf
      have hfeq : f = ls + minI := hinv f hf
      rcases hpend with hp | hgt
      · rw [hp] at hf
        exact absurd hf (List.not_mem_nil f)
      · exact absurd hle (Nat.not_le_of_lt (hfeq ▸ hgt f hf))
    · rw [if_neg hle]
      refine ⟨?_, fun _ => rfl, fun o ho => Option.noConfusion ho⟩
      intro f hf
      rcases List.mem_append.mp hf with hf1 | hf2
      · exact hinv f hf1
      · exact List.mem_singleton.mp hf2

theorem runSubmit_props (minI t : Nat) (p : APayload) (b : Bucket)
    (hinv : INVB minI b) :
    INVB minI (runSubmit minI b t p).1 ∧
    SpacedFrom minI b.lastSent (runSubmit minI b t p).2 ∧
    (runSubmit minI b t p).1.lastSent =
      lastTimeFrom b.lastSent (runSubmit minI b t p).2 := by
  obtain ⟨hainv, hasp, halast, hapend⟩ := advance_props minI t b hinv
  have hpend2 : (advanceB t b).1.pending = [] ∨
      ∀ f ∈ (advanceB t b).1.pending, t < f := hapend
  obtain ⟨hsinv, hsnone, hssome⟩ :=
    submit_props minI t p (advanceB t b).1 hainv hpend2
  show INVB minI (submitCmd minI t p (advanceB t b).1).1 ∧
    SpacedFrom minI b.lastSent ((advanceB t b).2 ++
      (match (submitCmd minI t p (advanceB t b).1).2 with
       | some o => [(t, o)] | none => [])) ∧
    (submitCmd minI t p (advanceB t b).1).1.lastSent =
      lastTimeFrom b.lastSent ((advanceB t b).2 ++
      (match (submitCmd minI t p (advanceB t b).1).2 with
       | some o => [(t, o)] | none => []))
  cases hout : (submitCmd minI t p (advanceB t b).1).2 with
  | none =>
    refine ⟨hsinv, ?_, ?_⟩
    · rw [List.append_nil]
      exact hasp
    · rw [List.append_nil, hsnone hout, halast]
  | some o =>
    obtain ⟨hlast2, hgap⟩ := hssome o hout
    refine ⟨hsinv, ?_, ?_⟩
    · refine spacedFrom_append minI (advanceB t b).2 b.lastSent [(t, o)] hasp ?_
      rw [← halast]
      cases hc : (advanceB t b).1.lastSent with
      | none => exact trivial
      | some ls =>
        rw [hc] at hgap
        exact ⟨hgap, trivial⟩
    · rw [hlast2]
      have : ∀ (l : List (Nat × PubOut)) (seed : Option Nat),
          lastTimeFrom seed (l ++ [(t, o)]) = some t := by
        intro l
        induction l with
        | nil => intro seed; rfl
        | cons x rest ih => intro seed; exact ih (some x.1)
      rw [this]

theorem runRL_props (minI : Nat) :
    ∀ (cmds : List (Nat × APayload)) (b : Bucket), INVB minI b →
      INVB minI (runRL minI b cmds).1 ∧
      SpacedFrom minI b.lastSent (runRL minI b cmds).2 ∧
      (runRL minI b cmds).1.lastSent =
        lastTimeFrom b.lastSent (runRL minI b cmds).2 := by
  intro cmds
  induction cmds with
  | nil =>
    intro b hinv
    refine ⟨hinv, ?_, rfl⟩
    cases b.lastSent <;> exact trivial
  | cons c rest ih =>
    intro b hinv
    obtain ⟨t, p⟩ := c
    obtain ⟨h1inv, h1sp, h1last⟩ := runSubmit_props minI t p b hinv
    obtain ⟨h2inv, h2sp, h2last⟩ := ih (runSubmit minI b t p).1 h1inv
    show INVB minI (runRL minI (runSubmit minI b t p).1 rest).1 ∧
      SpacedFrom minI b.lastSent ((runSubmit minI b t p).2 ++
        (runRL minI (runSubmit minI b t p).1 rest).2) ∧
      (runRL minI (runSubmit minI b t p).1 rest).1.lastSent =
        lastTimeFrom b.lastSent ((runSubmit minI b t p).2 ++
        (runRL minI (runSubmit minI b t p).1 rest).2)
    refine ⟨h2inv, ?_, ?_⟩
    · refine spacedFrom_append minI _ _ _ h1sp ?_
      rw [← h1last]
      exact h2sp
    · have hltf : ∀ (l1 : List (Nat × PubOut)) (seed : Option Nat)
          (l2 : List (Nat × PubOut)),
          lastTimeFrom seed (l1 ++ l2) = lastTimeFrom (lastTimeFrom seed l1) l2 := by
        intro l1
        induction l1 with
        | nil => intro seed l2; rfl
        | cons x r ihl => intro seed l2; exact ihl (some x.1) l2
      rw [hltf, ← h1last, h2last]

theorem finish_props (minI : Nat) (b : Bucket) (hinv : INVB minI b) :
    SpacedFrom minI b.lastSent (finishAux b.pending b.acc) := by
  obtain ⟨ls0, acc, pending⟩ := b
  cases ls0 with
  | none =>
    obtain ⟨hp, ha⟩ := hinv
    subst hp
    exact trivial
  | some ls =>
    show SpacedFrom minI (some ls) (finishAux pending acc)
    cases hpend : pending with
    | nil => exact trivial
    | cons f rest =>
      have hf : f = ls + minI := hinv f (hpend ▸ List.mem_cons_self _ _)
      unfold finishAux
      by_cases hacc : acc.isEmpty = true
      · rw [if_pos hacc]
        have hacc2 : acc = [] := by
          cases acc with
          | nil => rfl
          | cons a r => cases hacc
        rw [hacc2, finishAux_nil_acc]
        exact trivial
      · rw [if_neg hacc, finishAux_nil_acc]
        exact ⟨hf ▸ le_refl _, trivial⟩

/-- C5. (1) Coalescing window: starting from a bucket whose last publish
was at `t0`, any nonempty batch of commands submitted before
`t0 + min_interval` produces exactly one transport publish, at
`t0 + min_interval`, whose payload carries for each actuator key touched
the last-submitted payload for that key (last-write-wins).  (2) Rate
bound: on any trace of submissions from an idle bucket, consecutive
publishes on the topic are at least `min_interval` apart (the topic is
never sent more than `rateHz` publishes per second). -/
theorem rate_limiter_window_and_spacing :
    (∀ (minI t0 : Nat) (cmds : List (Nat × APayload)),
      cmds ≠ [] →
      (∀ c ∈ cmds, t0 ≤ c.1 ∧ c.1 < t0 + minI) →
      rlPublishes minI ⟨some t0, [], []⟩ cmds =
        [(t0 + minI, mkOut (accOf cmds))] ∧
      outValues (mkOut (accOf cmds)) = (accOf cmds).map (·.2) ∧
      (∀ key, lookupAssoc (accOf cmds) key = lastCmdFor cmds key)) ∧
    (∀ (minI : Nat) (cmds : List (Nat × APayload)),
      SpacedFrom minI none (rlPublishes minI ⟨none, [], []⟩ cmds)) := by
  constructor
  · intro minI t0 cmds hne hwin
    have hrun := runRL_window minI t0 cmds [] 0 (fun c hc => (hwin c hc).2)
    simp only [List.replicate_zero] at hrun
    refine ⟨?_, outValues_mkOut _, ?_⟩
    · unfold rlPublishes
      rw [hrun]
      dsimp only
      rw [List.nil_append]
      show finishAux (List.replicate (0 + cmds.length) (t0 + minI)) (accOf cmds) = _
      rw [finishAux_replicate (0 + cmds.length) (t0 + minI) (accOf cmds)
        (accOf_ne_nil cmds hne) (by
          cases cmds with
          | nil => exact absurd rfl hne
          | cons c rest => simp)]
    · intro key
      show lookupAssoc (cmds.foldl (fun a c => upsertAssoc a c.2.actuator c.2) [])
        key = _
      rw [fold_upsert_cmd_lookup]
      cases lastCmdFor cmds key <;> rfl
  · intro minI cmds
    have hinv0 : INVB minI ⟨none, [], []⟩ := ⟨rfl, rfl⟩
    obtain ⟨hinv, hsp, hlast⟩ := runRL_props minI cmds ⟨none, [], []⟩ hinv0
    unfold rlPublishes
    refine spacedFrom_append minI _ _ _ hsp ?_
    rw [← hlast]
    exact finish_props minI _ hinv

/-- Witness for `rate_limiter_window_and_spacing`: three commands to two
actuators inside one window coalesce into one batched publish carrying
the last state per key. -/
theorem rate_limiter_witness :
    rlPublishes 10 ⟨some 100, [], []⟩
      [(101, ⟨"grow1", "pump1", "on", none⟩),
       (104, ⟨"grow1", "valve", "on", none⟩),
       (107, ⟨"grow1", "pump1", "off", none⟩)] =
      [(110, mkOut (accOf
        [(101, ⟨"grow1", "pump1", "on", none⟩),
         (104, ⟨"grow1", "valve", "on", none⟩),
         (107, ⟨"grow1", "pump1", "off", none⟩)]))] ∧
    lookupAssoc (accOf
        [(101, ⟨"grow1", "pump1", "on", none⟩),
         (104, ⟨"grow1", "valve", "on", none⟩),
         (107, ⟨"grow1", "pump1", "off", none⟩)]) "pump1" =
      some ⟨"grow1", "pump1", "off", none⟩ ∧
    SpacedFrom 10 none (rlPublishes 10 ⟨none, [], []⟩
      [(1, ⟨"grow1", "pump1", "on", none⟩), (2, ⟨"grow1", "pump1", "off", none⟩)]) := by
  have h := rate_limiter_window_and_spacing.1 10 100
    [(101, ⟨"grow1", "pump1", "on", none⟩),
     (104, ⟨"grow1", "valve", "on", none⟩),
     (107, ⟨"grow1", "pump1", "off", none⟩)]
    (by simp)
    (by decide)
  refine ⟨h.1, ?_, rate_limiter_window_and_spacing.2 10
    [(1, ⟨"grow1", "pump1", "on", none⟩), (2, ⟨"grow1", "pump1", "off", none⟩)]⟩
  rw [h.2.2 "pump1"]
  rfl

/-! ## Automation engine: the `set_actuator` action
(`_execute_set_actuator`, `src/agents/gardener/automation_runner.py`
lines 308-366, and `control_actuator`,
`src/agents/gardener/hydro_client.py` lines 250-281)

The action reads the actuator's control mode (`get_actuator_modes`) and
the actuator's current state from the latest-readings API, skips when
the mode is not `auto` or the state already matches, and otherwise calls
`hydro_client.control_actuator(device_key, actuator_key, state)` — which
builds a one-command batch and posts it with its default
`source="ai"`, `force=False`. -/

structure MetricReadingA where
  metric_key : String
  value : Option Json

structure SetActuatorAction where
  device_key : String
  actuator_key : String
  state : String

/-- The batch-control request a `control_actuator` call posts. -/
structure IssuedControl where
  commands : List ActCommand
  source : String
  force : Bool

/-- `hydro_client.control_actuator` with its default keyword arguments
(`source="ai"`, `force=False`). -/
def control_actuator_request (device_key actuator_key state : String) :
    IssuedControl :=
  ⟨[⟨device_key, actuator_key, state⟩], "ai", false⟩

/-- `current_state`: the value of the first latest-reading whose
`metric_key` matches, `None` when absent. -/
def currentStateOf (latest : String → List MetricReadingA) (d k : String) :
    Option Json :=
  match (latest d).find? (fun r => r.metric_key = k) with
  | some r => r.value
  | none => none

/-- `_execute_set_actuator`: returns the issued batch-control request,
or `none` when the action is a (logged) no-op.  The Python `==` between
the JSON current state and the string `state` is true exactly for an
equal string value. -/
def execute_set_actuator (a : SetActuatorAction)
    (modes : String → String → Option String)
    (latest : String → List MetricReadingA) : Option IssuedControl :=
  if modes a.device_key a.actuator_key = some "auto" then
    match currentStateOf latest a.device_key a.actuator_key with
    | some (.str s) =>
      if s = a.state then none
      else some (control_actuator_request a.device_key a.actuator_key a.state)
    | _ => some (control_actuator_request a.device_key a.actuator_key a.state)
  else none

/-- C6 (counterexample). An enabled rule's `set_actuator` action on an
auto-mode actuator that needs switching issues its command with
`source = "ai"` (the `hydro_client.control_actuator` default — the
runner passes no `source`), not `source = "automation"` as claimed. -/
theorem automation_command_source_is_ai :
    (execute_set_actuator ⟨"grow1", "pump1", "on"⟩
        (fun d k => if d = "grow1" ∧ k = "pump1" then some "auto" else none)
        (fun _ => [⟨"pump1", some (.str "off")⟩])).map (·.source) = some "ai" ∧
    ("ai" : String) ≠ "automation" := by
  exact ⟨rfl, by decide⟩

/-- C6 (amended). `set_actuator` is a no-op when the actuator's control
mode is not `auto` or when the current state (read through the
latest-readings API) already equals the desired state; otherwise it
issues exactly one command for the actuator with `source = "ai"` and
`force = false` — a source the Permission Arbiter allows in auto mode. -/
theorem set_actuator_action_amended :
    ∀ (a : SetActuatorAction) (modes : String → String → Option String)
      (latest : String → List MetricReadingA),
      (modes a.device_key a.actuator_key ≠ some "auto" →
        execute_set_actuator a modes latest = none) ∧
      (currentStateOf latest a.device_key a.actuator_key =
          some (.str a.state) →
        execute_set_actuator a modes latest = none) ∧
      (∀ issued, execute_set_actuator a modes latest = some issued →
        issued.source = "ai" ∧ issued.force = false ∧
        issued.commands = [⟨a.device_key, a.actuator_key, a.state⟩] ∧
        (is_allowed "auto" issued.source issued.force).1 = true) := by
  intro a modes latest
  refine ⟨?_, ?_, ?_⟩
  · intro hmode
    unfold execute_set_actuator
    rw [if_neg hmode]
  · intro hcur
    unfold execute_set_actuator
    by_cases hmode : modes a.device_key a.actuator_key = some "auto"
    · rw [if_pos hmode, hcur]
      show (if a.state = a.state then none else _) = none
      rw [if_pos rfl]
    · rw [if_neg hmode]
  · intro issued hiss
    unfold execute_set_actuator at hiss
    by_cases hmode : modes a.device_key a.actuator_key = some "auto"
    · rw [if_pos hmode] at hiss
      have hreq : issued = control_actuator_request a.device_key a.actuator_key
          a.state := by
        cases hcur : currentStateOf latest a.device_key a.actuator_key with
        | none =>
          rw [hcur] at hiss
          cases hiss
          rfl
        | some j =>
          rw [hcur] at hiss
          cases j with
          | str s =>
            by_cases hs : s = a.state
            · rw [show (match some (Json.str s) with
                | some (.str s) => if s = a.state then none
                  else some (control_actuator_request a.device_key
                    a.actuator_key a.state)
                | _ => some (control_actuator_request a.device_key
                    a.actuator_key a.state)) =
                  (if s = a.state then none
                   else some (control_actuator_request a.device_key
                     a.actuator_key a.state)) from rfl, if_pos hs] at hiss
              cases hiss
            · rw [show (match some (Json.str s) with
                | some (.str s) => if s = a.state then none
                  else some (control_actuator_request a.device_key
                    a.actuator_key a.state)
                | _ => some (control_actuator_request a.device_key
                    a.actuator_key a.state)) =
                  (if s = a.state then none
                   else some (control_actuator_request a.device_key
                     a.actuator_key a.state)) from rfl, if_neg hs] at hiss
              cases hiss
              rfl
          | num n => cases hiss; rfl
          | jbool b => cases hiss; rfl
          | obj fields => cases hiss; rfl
          | arr elems => cases hiss; rfl
          | null => cases hiss; rfl
      rw [hreq]
      exact ⟨rfl, rfl, rfl, rfl⟩
    · rw [if_neg hmode] at hiss
      cases hiss

/-- Witness for `set_actuator_action_amended` at concrete inputs. -/
theorem set_actuator_action_witness :
    execute_set_actuator ⟨"grow1", "pump1", "on"⟩ (fun _ _ => some "manual")
      (fun _ => [⟨"pump1", some (.str "off")⟩]) = none ∧
    execute_set_actuator ⟨"grow1", "pump1", "on"⟩ (fun _ _ => some "auto")
      (fun _ => [⟨"pump1", some (.str "on")⟩]) = none ∧
    (IssuedControl.mk [⟨"grow1", "pump1", "on"⟩] "ai" false).source = "ai" ∧
    (IssuedControl.mk [⟨"grow1", "pump1", "on"⟩] "ai" false).force = false ∧
    (IssuedControl.mk [⟨"grow1", "pump1", "on"⟩] "ai" false).commands =
      [⟨"grow1", "pump1", "on"⟩] ∧
    (is_allowed "auto" (IssuedControl.mk [⟨"grow1", "pump1", "on"⟩] "ai"
      false).source false).1 = true := by
  refine ⟨?_, ?_, ?_⟩
  · exact (set_actuator_action_amended ⟨"grow1", "pump1", "on"⟩
      (fun _ _ => some "manual") (fun _ => [⟨"pump1", some (.str "off")⟩])).1
      (by decide)
  · exact (set_actuator_action_amended ⟨"grow1", "pump1", "on"⟩
      (fun _ _ => some "auto") (fun _ => [⟨"pump1", some (.str "on")⟩])).2.1 rfl
  · have h := (set_actuator_action_amended ⟨"grow1", "pump1", "on"⟩
      (fun _ _ => some "auto") (fun _ => [⟨"pump1", some (.str "off")⟩])).2.2
      ⟨[⟨"grow1", "pump1", "on"⟩], "ai", false⟩ rfl
    exact ⟨h.1, h.2.1, h.2.2.1, h.2.2.2⟩

/-! ## Cron conditions (`_evaluate_cron` lines 151-187 and
`execute_actions` lines 276-306 of
`src/agents/gardener/automation_runner.py`)

`croniter(expression, now).get_prev(datetime)` is abstracted as `prev`,
the latest scheduled tick at or before `now` (supplied per evaluation by
`prevOf`).  Time is in seconds.  `_rule_last_executed[rule_id]` is the
`Option Nat` state; `execute_actions` records `now` into it only when
the rule fired and at least one action of a known type was executed. -/

/-- `_evaluate_cron`: true when the rule has not executed since the
last scheduled tick and that tick is less than 60 seconds old. -/
def evaluate_cron (prev now : Nat) (last_executed : Option Nat) : Bool :=
  match last_executed with
  | none => decide (now - prev < 60)
  | some le => if le < prev then decide (now - prev < 60) else false

/-- One evaluation cycle of a rule whose `all_of` is the cron condition
followed by other conditions: `evaluate_rule` then `execute_actions`
(which records the execution time when an action of a known type ran).
Returns whether the cron condition evaluated to true, and the updated
per-rule last-executed state. -/
def runCronRuleCycle (prevOf : Nat → Nat) (otherConds : Nat → Bool)
    (hasKnownAction : Bool) (st : Option Nat) (now : Nat) : Bool × Option Nat :=
  let condTrue := evaluate_cron (prevOf now) now st
  let ruleMet := condTrue && otherConds now
  if ruleMet && hasKnownAction then (condTrue, some now) else (condTrue, st)

/-- A run of evaluation cycles: the cron-condition outcomes, and the
final last-executed state. -/
def runCronRuleCycles (prevOf : Nat → Nat) (otherConds : Nat → Bool)
    (hasKnownAction : Bool) : Option Nat → List Nat → List Bool × Option Nat
  | st, [] => ([], st)
  | st, now :: rest =>
    let c := runCronRuleCycle prevOf otherConds hasKnownAction st now
    let r := runCronRuleCycles prevOf otherConds hasKnownAction c.2 rest
    (c.1 :: r.1, r.2)

/-- C7 (counterexample). When a true cron condition does not lead to an
executed action (here: another condition of the rule is false), the
last-fired timestamp is never recorded, and the cron condition evaluates
to true again on the next cycle inside the same tick's grace window:
two evaluation cycles at 5s and 10s after the tick at 0 both return
true. -/
theorem cron_condition_true_twice_in_grace_window :
    (runCronRuleCycles (fun _ => 0) (fun _ => false) true none [5, 10]).1 =
      [true, true] := by
  rfl

theorem cron_cycles_all_false_after_exec (prevOf : Nat → Nat)
    (otherConds : Nat → Bool) (T e : Nat) (hTe : T ≤ e) :
    ∀ (times : List Nat), (∀ t ∈ times, prevOf t = T) →
      (runCronRuleCycles prevOf otherConds true (some e) times).1.count true = 0 := by
  intro times
  induction times with
  | nil => intro _; rfl
  | cons now rest ih =>
    intro hT
    have hprev : prevOf now = T := hT now (List.mem_cons_self _ _)
    have hcond : evaluate_cron (prevOf now) now (some e) = false := by
      unfold evaluate_cron
      rw [hprev]
      show (if e < T then decide (now - T < 60) else false) = false
      rw [if_neg (Nat.not_lt_of_le hTe)]
    show ((runCronRuleCycle prevOf otherConds true (some e) now).1 ::
      (runCronRuleCycles prevOf otherConds true
        (runCronRuleCycle prevOf otherConds true (some e) now).2 rest).1).count
      true = 0
    have hcyc : runCronRuleCycle prevOf otherConds true (some e) now =
        (false, some e) := by
      unfold runCronRuleCycle
      rw [hcond]
      rfl
    rw [hcyc]
    show ((false : Bool) :: (runCronRuleCycles prevOf otherConds true (some e)
      rest).1).count true = 0
    rw [List.count_cons]
    rw [ih (fun t ht => hT t (List.mem_cons_of_mem _ ht))]
    rfl

/-- C7 (amended). (1) A cron condition is true only within the 60-second
grace window after the scheduled tick.  (2) When every true evaluation
leads to executed actions (the rule's other conditions hold and it has
an action of a known type), the cron condition evaluates to true at most
once per scheduled tick, however often the evaluation loop runs: the
per-rule last-executed timestamp recorded by `execute_actions`
de-duplicates the following cycles.  (When the rule's actions do not
execute — another condition false, or no recognized action — the
timestamp is not recorded and the condition can be true on several
cycles within the same grace window, as the counterexample shows.) -/
theorem cron_fires_once_per_tick_amended :
    (∀ (prev now : Nat) (st : Option Nat),
      evaluate_cron prev now st = true → now - prev < 60) ∧
    (∀ (prevOf : Nat → Nat) (T : Nat) (times : List Nat) (st : Option Nat),
      (∀ t ∈ times, prevOf t = T ∧ T ≤ t) →
      (runCronRuleCycles prevOf (fun _ => true) true st times).1.count true ≤ 1) := by
  constructor
  · intro prev now st h
    unfold evaluate_cron at h
    cases st with
    | none => exact of_decide_eq_true h
    | some le =>
      replace h : (if le < prev then decide (now - prev < 60) else false) =
        true := h
      by_cases hlt : le < prev
      · rw [if_pos hlt] at h
        exact of_decide_eq_true h
      · rw [if_neg hlt] at h
        cases h
  · intro prevOf T times
    induction times with
    | nil => intro st _; exact Nat.zero_le 1
    | cons now rest ih =>
      intro st hT
      have hTe : T ≤ now := (hT now (List.mem_cons_self _ _)).2
      have hprev : prevOf now = T := (hT now (List.mem_cons_self _ _)).1
      show ((runCronRuleCycle prevOf (fun _ => true) true st now).1 ::
        (runCronRuleCycles prevOf (fun _ => true) true
          (runCronRuleCycle prevOf (fun _ => true) true st now).2 rest).1).count
        true ≤ 1
      cases hcond : evaluate_cron (prevOf now) now st with
      | false =>
        have hcyc : runCronRuleCycle prevOf (fun _ => true) true st now =
            (false, st) := by
          unfold runCronRuleCycle
          rw [hcond]
          rfl
        rw [hcyc]
        show ((false : Bool) :: (runCronRuleCycles prevOf (fun _ => true) true st
          rest).1).count true ≤ 1
        rw [List.count_cons]
        have := ih st (fun t ht => hT t (List.mem_cons_of_mem _ ht))
        simpa using this
      | true =>
        have hcyc : runCronRuleCycle prevOf (fun _ => true) true st now =
            (true, some now) := by
          unfold runCronRuleCycle
          rw [hcond]
          rfl
        rw [hcyc]
        show ((true : Bool) :: (runCronRuleCycles prevOf (fun _ => true) true
          (some now) rest).1).count true ≤ 1
        rw [List.count_cons]
        rw [cron_cycles_all_false_after_exec prevOf (fun _ => true) T now hTe rest
          (fun t ht => (hT t (List.mem_cons_of_mem _ ht)).1)]
        simp

/-- Witness for `cron_fires_once_per_tick_amended` at concrete inputs. -/
theorem cron_fires_once_witness :
    (5 - 0 < 60) ∧
    (runCronRuleCycles (fun _ => 0) (fun _ => true) true none
      [5, 10, 15]).1.count true ≤ 1 := by
  constructor
  · exact cron_fires_once_per_tick_amended.1 0 5 none (by decide)
  · exact cron_fires_once_per_tick_amended.2 (fun _ => 0) 0 [5, 10, 15] none
      (by decide)

end HydroV4
